import Mathlib

/-!
# StepperMotorDriver: speed-profile recalculation and step scheduling

A shallow embedding of `src/StepperDriver.cpp` / `src/StepperDriver.h`.

Conventions of the embedding

* `float` / `double` values are exact rationals (`ℚ`): no rounding, no infinities, no NaN.
  A quotient whose divisor is zero is `0` in `ℚ`; statements that depend on such a quotient
  carry the hypothesis that the divisor is non-zero.
  The rounding of single-precision arithmetic is not modelled. It matters on long ramps: on
  the deceleration ramp the truncated stopping energy `m_getStepsToStop` has to agree with
  the ramp index `k`, with a margin of about `1 / (2 * k)`, so the statements about whole
  ramps (no overshoot, convergence, smooth stop) are made for stopping distances of at most
  1000 steps.
* `int32_t` fields (`m_stepNum`, `m_currentPosition`, `m_targetPosition`) are mathematical
  integers: signed overflow is undefined behaviour in C++ and is outside the embedding.
* `uint32_t` fields (`m_stepInterval`, `m_lastStepTime`) are naturals; the one place where
  unsigned wrap-around is defined behaviour that the program relies on, the clock subtraction
  in `m_makeStepIfRequired`, is reduced modulo `2 ^ 32` explicitly.
* Conversions from a floating value to an integer type truncate toward zero.
* Hardware access (`digitalWrite`, `pinMode`, `delayMicroseconds`) is recorded as a list of
  events; the clock `micros()` is an argument of the polling functions.
* `sqrt` (libm) is an argument `fsqrt` of the two functions that use it.
* The members that the constructor reads or leaves before it has written them are the fields
  of `Uninitialised`; the states of a driver object are those of `Reachable`: the constructed
  state, in any memory, followed by any sequence of operations.
-/

namespace StepperDriver

/-- Positioning mode for the movement commands (`enum PositioningMode`). -/
inductive PositioningMode where
  | RELATIVE_POS
  | ABSOLUTE_POS
deriving DecidableEq

/-- Direction of movement (`enum MovementDirection`). -/
inductive MovementDirection where
  | CLOCKWISE
  | COUNTER_CLOCKWISE
deriving DecidableEq

open MovementDirection PositioningMode

/-- One access to the hardware collaborators. -/
inductive PinEvent where
  | pinModeOutput (pin : Nat)
  | digitalWrite (pin : Nat) (high : Bool)
  | delayMicroseconds (us : Nat)
deriving DecidableEq

/-- Pulse width of one step, in microseconds (`#define STEP_PULSE_WIDTH 4`). -/
def STEP_PULSE_WIDTH : Nat := 4

/-- Conversion of a floating value to a signed integer: truncation toward zero. -/
def truncQ (q : ℚ) : Int := Int.tdiv q.num q.den

/-- Conversion of a floating value to `uint32_t`: truncation toward zero
(values outside the range of the type are undefined behaviour in C++). -/
def toUInt32 (q : ℚ) : Nat := (truncQ q).toNat

/-- Absolute value of a floating value (`fabs`). -/
def fabs (q : ℚ) : ℚ := if q < 0 then -q else q

/-- The Arduino `constrain(amt, low, high)` function-like definition. -/
def constrain (amt low high : ℚ) : ℚ :=
  if amt < low then low else if amt > high then high else amt

/-- The data members of `class StepperDriver`. -/
structure State where
  reverseDirection : Bool
  positioning : PositioningMode
  m_direction : MovementDirection
  m_stepsPerDegree : ℚ
  m_stepsPerUnit : ℚ
  m_stepPin : Nat
  m_dirPin : Nat
  m_speed : ℚ
  m_maxSpeed : ℚ
  m_acceleration : ℚ
  m_stepInterval : Nat
  m_lastStepTime : Nat
  m_stepNum : Int
  m_initialStepSize : ℚ
  m_lastStepSize : ℚ
  m_minStepSize : ℚ
  m_currentPosition : Int
  m_targetPosition : Int
deriving DecidableEq

/-- Pin writes of `StepperDriver::m_makeStep` (one pulse on the step line). -/
def m_makeStep (s : State) : List PinEvent :=
  [ (if (!s.reverseDirection && s.m_direction == CLOCKWISE)
        || (s.reverseDirection && s.m_direction == COUNTER_CLOCKWISE)
      then PinEvent.digitalWrite s.m_dirPin false
      else PinEvent.digitalWrite s.m_dirPin true),
    PinEvent.digitalWrite s.m_stepPin true,
    PinEvent.delayMicroseconds STEP_PULSE_WIDTH,
    PinEvent.digitalWrite s.m_stepPin false ]

/-- Unsigned 32-bit subtraction `time - m_lastStepTime`. -/
def elapsed (time lastStepTime : Nat) : Nat :=
  (((time : Int) - (lastStepTime : Int)) % 2 ^ 32).toNat

/-- The function `StepperDriver::m_makeStepIfRequired`; `time` is the value of `micros()`.
Returns whether a step occurred, the new state and the pin writes. -/
def m_makeStepIfRequired (s : State) (time : Nat) : Bool × State × List PinEvent :=
  if s.m_stepInterval = 0 then
    (false, s, [])
  else if elapsed time s.m_lastStepTime ≥ s.m_stepInterval then
    let s1 : State :=
      if s.m_direction = CLOCKWISE then
        { s with m_currentPosition := s.m_currentPosition + 1 }
      else
        { s with m_currentPosition := s.m_currentPosition - 1 }
    (true, { s1 with m_lastStepTime := time }, m_makeStep s)
  else
    (false, s, [])

/-- The function `StepperDriver::setUnit`. -/
def setUnit (s : State) (stepsPerUnit : ℚ) : State :=
  { s with m_stepsPerUnit := fabs stepsPerUnit }

/-- The function `StepperDriver::setPosition`. -/
def setPosition (s : State) (steps : Int) : State :=
  { s with
    m_currentPosition := steps
    m_targetPosition := steps
    m_stepNum := 0
    m_stepInterval := 0
    m_speed := 0 }

/-- The function `StepperDriver::getTargetDistance`. -/
def getTargetDistance (s : State) : Int :=
  s.m_targetPosition - s.m_currentPosition

/-- The function `StepperDriver::m_getStepsToStop` (result type `uint32_t`). -/
def m_getStepsToStop (s : State) : Nat :=
  toUInt32 ((s.m_speed * s.m_speed) / (2 * s.m_acceleration))

/-- Lines 85-108 of `m_recalculateSpeed`: the value of `m_stepNum` after the two symmetric
`if (targetDistance > 0) ... else if (targetDistance < 0) ...` blocks. -/
def phaseDecision (s : State) (targetDistance stepsToStop : Int) : Int :=
  if targetDistance > 0 then
    if s.m_stepNum > 0 ∧ (targetDistance ≤ stepsToStop ∨ s.m_direction = COUNTER_CLOCKWISE) then
      -stepsToStop
    else if s.m_stepNum < 0 ∧ (s.m_direction = CLOCKWISE ∧ targetDistance > stepsToStop) then
      s.m_stepNum * -1
    else
      s.m_stepNum
  else if targetDistance < 0 then
    if s.m_stepNum > 0 ∧ (-targetDistance ≤ stepsToStop ∨ s.m_direction = CLOCKWISE) then
      -stepsToStop
    else if s.m_stepNum < 0 ∧ (s.m_direction = COUNTER_CLOCKWISE ∧ -targetDistance > stepsToStop) then
      s.m_stepNum * -1
    else
      s.m_stepNum
  else
    s.m_stepNum

/-- Lines 110-120 of `m_recalculateSpeed`: the ramp-start seed or the recurrence
(Equation #13) with its clamp, on a state whose `m_stepNum` is already decided. -/
def nextStepSize (s : State) (targetDistance : Int) : State :=
  if s.m_stepNum = 0 then
    { s with
      m_lastStepSize := s.m_initialStepSize
      m_direction := if targetDistance > 0 then CLOCKWISE else COUNTER_CLOCKWISE }
  else
    let l : ℚ := s.m_lastStepSize - ((2 * s.m_lastStepSize) / (4 * (s.m_stepNum : ℚ) + 1))
    { s with m_lastStepSize := if l < s.m_minStepSize then s.m_minStepSize else l }

/-- The function `StepperDriver::m_recalculateSpeed`. -/
def m_recalculateSpeed (s : State) : State :=
  let targetDistance : Int := getTargetDistance s
  let stepsToStop : Int := (m_getStepsToStop s : Int)
  if targetDistance = 0 ∧ stepsToStop ≤ 1 then
    { s with m_stepInterval := 0, m_speed := 0, m_stepNum := 0 }
  else
    let s1 : State := { s with m_stepNum := phaseDecision s targetDistance stepsToStop }
    let s2 : State := nextStepSize s1 targetDistance
    let s3 : State :=
      { s2 with
        m_stepInterval := toUInt32 s2.m_lastStepSize
        m_speed := 1000000 / s2.m_lastStepSize }
    let s4 : State :=
      if s3.m_direction = COUNTER_CLOCKWISE then { s3 with m_speed := s3.m_speed * -1 } else s3
    { s4 with m_stepNum := s4.m_stepNum + 1 }

/-- The function `StepperDriver::setMaxSpeed`. -/
def setMaxSpeed (s : State) (maxSpeed : ℚ) : State :=
  let maxSpeed : ℚ := if maxSpeed < 0 then maxSpeed * -1 else maxSpeed
  let s1 : State := { s with m_maxSpeed := maxSpeed }
  let s2 : State := { s1 with m_minStepSize := 1000000 / s1.m_maxSpeed }
  if s2.m_stepNum ≠ 0 then
    m_recalculateSpeed
      { s2 with m_stepNum := truncQ ((s2.m_speed * s2.m_speed) / (2 * s2.m_acceleration)) }
  else
    s2

/-- The function `StepperDriver::setAcceleration`; `fsqrt` stands for `sqrt`. -/
def setAcceleration (fsqrt : ℚ → ℚ) (s : State) (acceleration : ℚ) : State :=
  if acceleration = 0 then
    s
  else
    let acceleration : ℚ := if acceleration < 0 then acceleration * -1 else acceleration
    if s.m_acceleration ≠ acceleration then
      let s1 : State :=
        { s with m_stepNum := truncQ ((s.m_stepNum : ℚ) * (s.m_acceleration / acceleration)) }
      let s2 : State := { s1 with m_acceleration := acceleration }
      let s3 : State :=
        { s2 with m_initialStepSize := 676 / 1000 * fsqrt (2 / s2.m_acceleration) * 1000000 }
      m_recalculateSpeed s3
    else
      s

/-- The function `StepperDriver::setSpeed`. -/
def setSpeed (s : State) (speed : ℚ) : State :=
  let s1 : State := { s with m_speed := speed }
  let s2 : State := { s1 with m_speed := constrain s1.m_speed (-s1.m_maxSpeed) s1.m_maxSpeed }
  if s2.m_speed = 0 then
    { s2 with m_stepInterval := 0 }
  else
    { s2 with
      m_stepInterval := toUInt32 (fabs (1000000 / s2.m_speed))
      m_direction := if s2.m_speed > 0 then CLOCKWISE else COUNTER_CLOCKWISE }

/-- The function `StepperDriver::run`; `time` is the value `micros()` returns if it is read.
Returns the result of `run`, the new state and the pin writes of this poll. -/
def run (s : State) (time : Nat) : Bool × State × List PinEvent :=
  let r := m_makeStepIfRequired s time
  let s1 : State := if r.1 then m_recalculateSpeed r.2.1 else r.2.1
  (decide (s1.m_speed ≠ 0 ∨ getTargetDistance s1 ≠ 0), s1, r.2.2)

/-- The function `StepperDriver::stop`. -/
def stop (s : State) (smoothly : Bool) : State :=
  if smoothly then
    m_recalculateSpeed
      { s with
        m_targetPosition :=
          s.m_currentPosition
            + (m_getStepsToStop s : Int) * (if s.m_direction = CLOCKWISE then 1 else -1) }
  else
    { s with
      m_targetPosition := s.m_currentPosition
      m_speed := 0
      m_stepInterval := 0
      m_stepNum := 0 }

/-- Contents of the members that the constructor reads or leaves before it has written them
(`m_acceleration` is compared in `setAcceleration`; `m_stepInterval`, `m_lastStepTime` and
`m_stepsPerUnit` are not assigned by the constructor itself). For an object with static
storage duration all of them are zero. -/
structure Uninitialised where
  m_acceleration : ℚ
  m_stepInterval : Nat
  m_lastStepTime : Nat
  m_stepsPerUnit : ℚ
deriving DecidableEq

/-- Memory of an object with static storage duration before its constructor runs. -/
def zeroMemory : Uninitialised :=
  { m_acceleration := 0, m_stepInterval := 0, m_lastStepTime := 0, m_stepsPerUnit := 0 }

/-- The constructor `StepperDriver::StepperDriver`, up to the call of `setAcceleration`. -/
def constructDefaults (mem : Uninitialised) (stepsPerRev stepPin dirPin : Nat) : State :=
  { reverseDirection := false
    positioning := RELATIVE_POS
    m_direction := CLOCKWISE
    m_stepsPerDegree := (stepsPerRev : ℚ) / 360
    m_stepsPerUnit := mem.m_stepsPerUnit
    m_stepPin := stepPin
    m_dirPin := dirPin
    m_speed := 0
    m_maxSpeed := 200
    m_acceleration := mem.m_acceleration
    m_stepInterval := mem.m_stepInterval
    m_lastStepTime := mem.m_lastStepTime
    m_stepNum := 0
    m_initialStepSize := 0
    m_lastStepSize := 0
    m_minStepSize := 1
    m_currentPosition := 0
    m_targetPosition := 0 }

/-- The constructor `StepperDriver::StepperDriver`: the constructed state. -/
def construct (fsqrt : ℚ → ℚ) (mem : Uninitialised) (stepsPerRev stepPin dirPin : Nat) : State :=
  setAcceleration fsqrt (constructDefaults mem stepsPerRev stepPin dirPin) 1

/-- The constructor `StepperDriver::StepperDriver`: its pin configuration. -/
def constructPins (stepPin dirPin : Nat) : List PinEvent :=
  [ PinEvent.pinModeOutput stepPin,
    PinEvent.pinModeOutput dirPin,
    PinEvent.digitalWrite stepPin false,
    PinEvent.digitalWrite dirPin false ]

/-- Modelled from the spec: the movement commands `move`, `rotate` and `rotateAtDegree` are
declared in `StepperDriver.h` but their definitions are not among the sources. Following the
spec (the recalculation engine is invoked after any call that changes the target position),
a target command stores the new target and invokes `m_recalculateSpeed`. -/
def moveTo (s : State) (target : Int) : State :=
  m_recalculateSpeed { s with m_targetPosition := target }

/-- A sequence of polls: `run` at each clock reading in turn; returns the final state and all
pin writes. -/
def pollAll : State → List Nat → State × List PinEvent
  | s, [] => (s, [])
  | s, time :: times =>
    ((pollAll (run s time).2.1 times).1, (run s time).2.2 ++ (pollAll (run s time).2.1 times).2)

/-- The phase policy in the words of the specification, for target distance `d`, stopping
distance `st`, ramp index `rampIndex` and direction `dir`. The direction is right when it
matches the sign of `d` (clockwise for `d > 0`, counter-clockwise for `d < 0`). For `d ≠ 0`:
begin decelerating (`-st`) when `rampIndex > 0` and (`|d| ≤ st` or the direction is wrong);
else resume accelerating (`-rampIndex`) when `rampIndex < 0`, the direction is right and
`|d| > st`; otherwise, and for `d = 0`, the ramp index is carried over. -/
def phasePolicy (d st rampIndex : Int) (dir : MovementDirection) : Int :=
  if d ≠ 0 ∧ 0 < rampIndex ∧
      (|d| ≤ st ∨ ¬ ((0 < d ∧ dir = CLOCKWISE) ∨ (d < 0 ∧ dir = COUNTER_CLOCKWISE))) then
    -st
  else if d ≠ 0 ∧ rampIndex < 0 ∧
      ((0 < d ∧ dir = CLOCKWISE) ∨ (d < 0 ∧ dir = COUNTER_CLOCKWISE)) ∧ |d| > st then
    -rampIndex
  else
    rampIndex

/-- Newton iteration for the integer square root, bounded by `fuel`. -/
def sqrtLoop : Nat → Nat → Nat → Nat
  | 0, _, guess => guess
  | fuel + 1, n, guess =>
    if (guess + n / guess) / 2 < guess then sqrtLoop fuel n ((guess + n / guess) / 2) else guess

/-- Integer square root, the largest `r` with `r * r ≤ n`. -/
def natSqrt (n : Nat) : Nat := sqrtLoop n n n

/-- A computable stand-in for `sqrt` on the concrete inputs below: the square root of
`q = a / b`, rounded down to a multiple of `1 / (b * 10 ^ 12)`; exact when `q` is the square
of a rational whose denominator divides `b * 10 ^ 12`. -/
def sqrtQ (q : ℚ) : ℚ :=
  (natSqrt (q.num.toNat * q.den * 10 ^ 24) : ℚ) / ((q.den : ℚ) * 10 ^ 12)

/-- One poll at the moment the scheduled step is due. -/
def pollWhenDue (s : State) : State :=
  (run s ((s.m_lastStepTime + s.m_stepInterval) % 2 ^ 32)).2.1

/-- A driver constructed in zeroed memory (200 steps per revolution, pins 2 and 3) and then
configured with `setMaxSpeed maxSpeed` and `setAcceleration acceleration`. -/
def configured (maxSpeed acceleration : ℚ) : State :=
  setAcceleration sqrtQ (setMaxSpeed (construct sqrtQ zeroMemory 200 2 3) maxSpeed) acceleration

/-- A driver constructed in zeroed memory and given `setAcceleration acceleration` only, so
that `m_maxSpeed` and `m_minStepSize` still have the values the constructor wrote. -/
def constructedOnly (acceleration : ℚ) : State :=
  setAcceleration sqrtQ (construct sqrtQ zeroMemory 200 2 3) acceleration

/-- The state in which the recalculation engine is entered when a driver with max speed 1000
and acceleration 200 has been sent toward `+10`, has made its first step, and is then sent
to `+2`. -/
def decelerationEntry : State :=
  { pollWhenDue (moveTo (configured 1000 200) 10) with m_targetPosition := 2 }

/-- Stopping energy: the quotient `m_speed ^ 2 / (2 * m_acceleration)` whose truncation is
`m_getStepsToStop`. -/
def energy (s : State) : ℚ := (s.m_speed * s.m_speed) / (2 * s.m_acceleration)

/-- Remaining distance to the target, counted in the direction of `m_direction`. -/
def forward (s : State) : Int :=
  if s.m_direction = CLOCKWISE then getTargetDistance s else -getTargetDistance s

/-- The state in which `run` invokes the recalculation engine when a step is made at clock
reading `now`: the position moved by one step in `m_direction`, the timestamp set. -/
def advance (s : State) (now : Nat) : State :=
  { s with
    m_currentPosition := s.m_currentPosition + (if s.m_direction = CLOCKWISE then 1 else -1)
    m_lastStepTime := now }

/-- The states of a run of polls: poll number `k` happens at clock reading `clock k`. -/
def trajectory (s : State) (clock : Nat → Nat) : Nat → State
  | 0 => s
  | k + 1 => (run (trajectory s clock k) (clock k)).2.1

/-- Idle at the target: at the target position with zero speed, no step scheduled and the
ramp index reset. -/
def IdleAtTarget (s : State) : Prop :=
  s.m_currentPosition = s.m_targetPosition ∧ s.m_speed = 0 ∧ s.m_stepInterval = 0 ∧ s.m_stepNum = 0

/-- Upper bound of the stopping energy on the acceleration ramp, by ramp index: `5471 / 10000`
at index 1, multiplied at every further index by the square of the recurrence factor. -/
def rampBound : Nat → ℚ
  | 0 => 5471 / 10000
  | 1 => 5471 / 10000
  | n + 2 => rampBound (n + 1) * ((4 * ((n : ℚ) + 1) + 1) / (4 * ((n : ℚ) + 1) - 1)) ^ 2

/-- Invariant of a positioning move that is under way: a step is scheduled
(`m_stepInterval` is the truncation of `m_lastStepSize ≥ 1`), `m_speed` has the magnitude
`1e6 / m_lastStepSize`, at least one step remains in the direction of motion, and either the
motor accelerates (`m_stepNum ≥ 1`, energy below `rampBound` and below the remaining distance
plus one) or it decelerates (`m_stepNum ≤ 0`, the truncated energy is exactly `-m_stepNum`,
and the remaining distance is `-m_stepNum` or `-m_stepNum + 1`). -/
structure OnRamp (s : State) : Prop where
  acceleration_pos : 0 < s.m_acceleration
  minStep_ge : 1 ≤ s.m_minStepSize
  lastStep_ge : 1 ≤ s.m_lastStepSize
  speed_sq : s.m_speed * s.m_speed = 1000000 / s.m_lastStepSize * (1000000 / s.m_lastStepSize)
  interval_eq : s.m_stepInterval = toUInt32 s.m_lastStepSize
  forward_pos : 1 ≤ forward s
  ramp :
    (1 ≤ s.m_stepNum ∧ energy s ≤ rampBound s.m_stepNum.toNat ∧
        energy s < ((forward s : Int) : ℚ) + 1 ∧
        (2 ≤ s.m_stepNum → s.m_minStepSize ≤ s.m_lastStepSize)) ∨
      (s.m_stepNum ≤ 0 ∧ s.m_minStepSize ≤ s.m_lastStepSize ∧
        ((-s.m_stepNum : Int) : ℚ) ≤ energy s ∧ energy s < ((-s.m_stepNum : Int) : ℚ) + 1 ∧
        (forward s = -s.m_stepNum ∨ forward s = -s.m_stepNum + 1))

/-- The function `StepperDriver::setPositionDegrees`. -/
def setPositionDegrees (s : State) (degrees : ℚ) : State :=
  setPosition s (truncQ (degrees * s.m_stepsPerDegree))

/-- The function `StepperDriver::setPositionUnits`. -/
def setPositionUnits (s : State) (units : ℚ) : State :=
  setPosition s (truncQ (units * s.m_stepsPerUnit))

/-- States of a driver object: the state the constructor leaves, in any memory, and every
state a public operation or an assignment to a public data member leaves from one of them
(the target commands `move`, `rotate` and `rotateAtDegree` through `moveTo`). -/
inductive Reachable (fsqrt : ℚ → ℚ) : State → Prop where
  | constructed (mem : Uninitialised) (stepsPerRev stepPin dirPin : Nat) :
      Reachable fsqrt (construct fsqrt mem stepsPerRev stepPin dirPin)
  | assignReverseDirection (s : State) (b : Bool) :
      Reachable fsqrt s → Reachable fsqrt { s with reverseDirection := b }
  | assignPositioning (s : State) (m : PositioningMode) :
      Reachable fsqrt s → Reachable fsqrt { s with positioning := m }
  | setUnit (s : State) (stepsPerUnit : ℚ) :
      Reachable fsqrt s → Reachable fsqrt (setUnit s stepsPerUnit)
  | run (s : State) (time : Nat) : Reachable fsqrt s → Reachable fsqrt (run s time).2.1
  | setMaxSpeed (s : State) (maxSpeed : ℚ) :
      Reachable fsqrt s → Reachable fsqrt (setMaxSpeed s maxSpeed)
  | setAcceleration (s : State) (acceleration : ℚ) :
      Reachable fsqrt s → Reachable fsqrt (setAcceleration fsqrt s acceleration)
  | setSpeed (s : State) (speed : ℚ) : Reachable fsqrt s → Reachable fsqrt (setSpeed s speed)
  | setPosition (s : State) (steps : Int) :
      Reachable fsqrt s → Reachable fsqrt (setPosition s steps)
  | setPositionDegrees (s : State) (degrees : ℚ) :
      Reachable fsqrt s → Reachable fsqrt (setPositionDegrees s degrees)
  | setPositionUnits (s : State) (units : ℚ) :
      Reachable fsqrt s → Reachable fsqrt (setPositionUnits s units)
  | moveTo (s : State) (target : Int) : Reachable fsqrt s → Reachable fsqrt (moveTo s target)
  | stop (s : State) (smoothly : Bool) : Reachable fsqrt s → Reachable fsqrt (stop s smoothly)

/-- Invariant of the limit fields and the step size: `m_maxSpeed` is not negative,
`m_minStepSize` is either the constant `1` the constructor writes beside `m_maxSpeed = 200` or
the quotient `1e6 / m_maxSpeed` that `setMaxSpeed` writes, and while the ramp index is not
zero `m_lastStepSize` is the seed `m_initialStepSize` or at least `m_minStepSize`. -/
def StepSizeInv (s : State) : Prop :=
  0 ≤ s.m_maxSpeed ∧
  ((s.m_minStepSize = 1 ∧ s.m_maxSpeed = 200) ∨ s.m_minStepSize = 1000000 / s.m_maxSpeed) ∧
  (s.m_stepNum ≠ 0 →
    s.m_lastStepSize = s.m_initialStepSize ∨ s.m_minStepSize ≤ s.m_lastStepSize)

/-- The states in which the operations of the driver invoke the recalculation engine: after
the step of a poll, after the writes of `setMaxSpeed` (only while the ramp index is not zero)
and of `setAcceleration` (only when the acceleration changes; also inside the constructor),
after a target command, and after the target write of a smooth stop. -/
inductive RecalcEntry (fsqrt : ℚ → ℚ) : State → Prop where
  | construct (mem : Uninitialised) (stepsPerRev stepPin dirPin : Nat) :
      mem.m_acceleration ≠ 1 →
      RecalcEntry fsqrt
        { constructDefaults mem stepsPerRev stepPin dirPin with
          m_stepNum := truncQ (((constructDefaults mem stepsPerRev stepPin dirPin).m_stepNum : ℚ)
            * (mem.m_acceleration / 1))
          m_acceleration := 1
          m_initialStepSize := 676 / 1000 * fsqrt (2 / 1) * 1000000 }
  | run (s : State) (time : Nat) :
      Reachable fsqrt s → (m_makeStepIfRequired s time).1 = true →
      RecalcEntry fsqrt (m_makeStepIfRequired s time).2.1
  | setMaxSpeed (s : State) (maxSpeed : ℚ) :
      Reachable fsqrt s → s.m_stepNum ≠ 0 →
      RecalcEntry fsqrt
        { s with
          m_maxSpeed := |maxSpeed|
          m_minStepSize := 1000000 / |maxSpeed|
          m_stepNum := truncQ ((s.m_speed * s.m_speed) / (2 * s.m_acceleration)) }
  | setAcceleration (s : State) (acceleration : ℚ) :
      Reachable fsqrt s → acceleration ≠ 0 → s.m_acceleration ≠ |acceleration| →
      RecalcEntry fsqrt
        { s with
          m_stepNum := truncQ ((s.m_stepNum : ℚ) * (s.m_acceleration / |acceleration|))
          m_acceleration := |acceleration|
          m_initialStepSize := 676 / 1000 * fsqrt (2 / |acceleration|) * 1000000 }
  | moveTo (s : State) (target : Int) :
      Reachable fsqrt s → RecalcEntry fsqrt { s with m_targetPosition := target }
  | stop (s : State) :
      Reachable fsqrt s →
      RecalcEntry fsqrt
        { s with
          m_targetPosition :=
            s.m_currentPosition
              + (m_getStepsToStop s : Int) * (if s.m_direction = CLOCKWISE then 1 else -1) }

/-- Memory in which the bytes of `m_acceleration` hold `1.0` before the constructor runs (an
object with automatic or dynamic storage duration, for example in the place of an earlier
driver that kept the default acceleration); the other members are zero. -/
def staleMemory : Uninitialised :=
  { zeroMemory with m_acceleration := 1 }

/-- Invariant of the acceleration fields: `m_acceleration` is positive, and
`m_initialStepSize` is `0.676 * fsqrt (2 / m_acceleration) * 1e6` unless the constructor found
`1.0` in the uninitialised `m_acceleration` and `setAcceleration` has not changed the
acceleration since (then `m_initialStepSize = 0` beside `m_acceleration = 1`). -/
def AccelerationInv (fsqrt : ℚ → ℚ) (s : State) : Prop :=
  0 < s.m_acceleration ∧
  (s.m_initialStepSize = 676 / 1000 * fsqrt (2 / s.m_acceleration) * 1000000 ∨
    (s.m_initialStepSize = 0 ∧ s.m_acceleration = 1))

/-- The mirror map on motion states: the positions and the speed change sign and the two
directions are swapped; the ramp index, the step sizes, the step interval, the limits and
every other member are unchanged. -/
def mirror (s : State) : State :=
  { s with
    m_currentPosition := -s.m_currentPosition
    m_targetPosition := -s.m_targetPosition
    m_speed := -s.m_speed
    m_direction := if s.m_direction = CLOCKWISE then COUNTER_CLOCKWISE else CLOCKWISE }

/-- Invariant of a polled driver, used for the symmetry of its trajectories: no step is
scheduled, or `m_lastStepSize` is positive, `m_speed` has the magnitude `1e6 / m_lastStepSize`
and, while the ramp index is not positive, the stopping energy is below `-m_stepNum + 1`. -/
def Tracking (s : State) : Prop :=
  s.m_stepInterval = 0 ∨
  (0 < s.m_lastStepSize ∧
    s.m_speed * s.m_speed = 1000000 / s.m_lastStepSize * (1000000 / s.m_lastStepSize) ∧
    (s.m_stepNum ≤ 0 → energy s < ((-s.m_stepNum : Int) : ℚ) + 1))

/-- States in which a smooth stop ends after exactly `m_getStepsToStop` steps: the stopping
distance is 0; or `m_minStepSize ≥ 1` and either the ramp index is 0 with
`m_initialStepSize ≥ 1` and a seed energy of at most `5471 / 10000` (the value
`setAcceleration` sets), or the ramp index is not 0 and speed, step size and ramp index agree:
`m_minStepSize ≤ m_lastStepSize`, `m_speed` has the magnitude `1e6 / m_lastStepSize` and,
while decelerating (`m_stepNum < 0`), the ramp index is `-m_getStepsToStop`. -/
def SmoothStoppable (s : State) : Prop :=
  m_getStepsToStop s = 0 ∨
  (1 ≤ s.m_minStepSize ∧
    ((s.m_stepNum = 0 ∧ 1 ≤ s.m_initialStepSize ∧
        1000000 / s.m_initialStepSize * (1000000 / s.m_initialStepSize)
          / (2 * s.m_acceleration) ≤ 5471 / 10000) ∨
      (s.m_stepNum ≠ 0 ∧ s.m_minStepSize ≤ s.m_lastStepSize ∧
        s.m_speed * s.m_speed = 1000000 / s.m_lastStepSize * (1000000 / s.m_lastStepSize) ∧
        (s.m_stepNum < 0 → (m_getStepsToStop s : Int) = -s.m_stepNum))))

end StepperDriver

namespace StepperDriver

open MovementDirection PositioningMode

/-! ## Frame lemmas of the recalculation engine -/

theorem recalc_currentPosition (s : State) :
    (m_recalculateSpeed s).m_currentPosition = s.m_currentPosition := by
  unfold m_recalculateSpeed nextStepSize
  dsimp only
  split_ifs <;> rfl

theorem recalc_targetPosition (s : State) :
    (m_recalculateSpeed s).m_targetPosition = s.m_targetPosition := by
  unfold m_recalculateSpeed nextStepSize
  dsimp only
  split_ifs <;> rfl

theorem recalc_lastStepTime (s : State) :
    (m_recalculateSpeed s).m_lastStepTime = s.m_lastStepTime := by
  unfold m_recalculateSpeed nextStepSize
  dsimp only
  split_ifs <;> rfl

/-! ## The step scheduler: idle polls, the step rule and the result of `run` -/

theorem elapsed_add_mod (last e : Nat) : elapsed ((last + e) % 2 ^ 32) last = e % 2 ^ 32 := by
  unfold elapsed
  have h : (((((last + e) % 2 ^ 32 : Nat) : Int) - (last : Int)) % 2 ^ 32) = ((e % 2 ^ 32 : Nat) : Int) := by
    push_cast
    omega
  rw [h]
  exact Int.toNat_natCast _

theorem pollAll_idle (s : State) (h : s.m_stepInterval = 0) (times : List Nat) :
    pollAll s times = (s, []) := by
  induction times with
  | nil => rfl
  | cons t ts ih =>
    have hr : run s t = (decide (s.m_speed ≠ 0 ∨ getTargetDistance s ≠ 0), s, []) := by
      simp [run, m_makeStepIfRequired, h]
    simp [pollAll, hr, ih]

/-- C5. Idempotent idle: in every state with `m_stepInterval = 0`, at every clock reading,
`run` writes no pin and returns the state unchanged (all fields, among them
`m_currentPosition`, `m_targetPosition`, `m_stepNum`, `m_speed`, `m_lastStepSize`,
`m_lastStepTime` and `m_direction`); hence every sequence of polls of such a driver is the
identity on the state and writes no pin. -/
theorem run_idle_identity (s : State) (h : s.m_stepInterval = 0) :
    (∀ time : Nat, (run s time).2.1 = s ∧ (run s time).2.2 = []
        ∧ (m_makeStepIfRequired s time).1 = false) ∧
    (∀ times : List Nat, pollAll s times = (s, [])) := by
  refine ⟨fun time => ?_, pollAll_idle s h⟩
  simp [run, m_makeStepIfRequired, h]

theorem run_idle_identity_witness :
    (configured 1000 500).m_stepInterval = 0 ∧
    ((∀ time : Nat,
        (run (configured 1000 500) time).2.1 = configured 1000 500
        ∧ (run (configured 1000 500) time).2.2 = []
        ∧ (m_makeStepIfRequired (configured 1000 500) time).1 = false) ∧
     (∀ times : List Nat, pollAll (configured 1000 500) times = (configured 1000 500, []))) :=
  ⟨by decide!, run_idle_identity (configured 1000 500) (by decide!)⟩

theorem makeStep_fires_iff (s : State) (now : Nat) :
    (m_makeStepIfRequired s now).1 = true ↔
      (s.m_stepInterval ≠ 0 ∧ elapsed now s.m_lastStepTime ≥ s.m_stepInterval) := by
  unfold m_makeStepIfRequired
  by_cases h1 : s.m_stepInterval = 0
  · simp [h1]
  · by_cases h2 : elapsed now s.m_lastStepTime ≥ s.m_stepInterval
    · simp [h1, h2]
    · simp [h1, h2]

/-- C9. Scheduler step rule: for every state and clock reading `now`, `run` makes a step
(the pulse of `m_makeStep` is written) if and only if `m_stepInterval ≠ 0` and
`(now - m_lastStepTime) mod 2 ^ 32 ≥ m_stepInterval`. When it does, the new state is the
recalculation engine applied once to the state with `m_currentPosition` moved by `+1` for
`CLOCKWISE` and `-1` otherwise and `m_lastStepTime = now`; so the position changes by exactly
one, the timestamp becomes `now` and the target is unchanged. When it does not, the state is
unchanged and no pin is written. Across a wrap of the clock the elapsed time is still exact:
`elapsed` after `e` more microseconds is `e mod 2 ^ 32`. -/
theorem run_step_rule (s : State) (now : Nat) :
    ((m_makeStepIfRequired s now).1 = true ↔
      (s.m_stepInterval ≠ 0 ∧
        (((now : Int) - (s.m_lastStepTime : Int)) % 2 ^ 32 ≥ (s.m_stepInterval : Int)))) ∧
    ((m_makeStepIfRequired s now).1 = true →
      (run s now).2.1 =
          m_recalculateSpeed
            { s with
              m_currentPosition :=
                s.m_currentPosition + (if s.m_direction = CLOCKWISE then 1 else -1)
              m_lastStepTime := now }
        ∧ (run s now).2.1.m_currentPosition =
            s.m_currentPosition + (if s.m_direction = CLOCKWISE then 1 else -1)
        ∧ (run s now).2.1.m_lastStepTime = now
        ∧ (run s now).2.1.m_targetPosition = s.m_targetPosition
        ∧ (run s now).2.2 = m_makeStep s) ∧
    ((m_makeStepIfRequired s now).1 = false →
      (run s now).2.1 = s ∧ (run s now).2.2 = []) ∧
    (∀ e : Nat, elapsed ((s.m_lastStepTime + e) % 2 ^ 32) s.m_lastStepTime = e % 2 ^ 32) := by
  refine ⟨?_, ?_, ?_, fun e => elapsed_add_mod _ e⟩
  · rw [makeStep_fires_iff]
    have hnn : (0 : Int) ≤ ((now : Int) - (s.m_lastStepTime : Int)) % 2 ^ 32 :=
      Int.emod_nonneg _ (by norm_num)
    unfold elapsed
    constructor
    · rintro ⟨h0, h1⟩
      refine ⟨h0, ?_⟩
      have := Int.toNat_of_nonneg hnn
      omega
    · rintro ⟨h0, h1⟩
      refine ⟨h0, ?_⟩
      have := Int.toNat_of_nonneg hnn
      omega
  · intro hf
    have hcond := (makeStep_fires_iff s now).1 hf
    have hstate : (run s now).2.1 =
          m_recalculateSpeed
            { s with
              m_currentPosition :=
                s.m_currentPosition + (if s.m_direction = CLOCKWISE then 1 else -1)
              m_lastStepTime := now } := by
      unfold run m_makeStepIfRequired
      simp only [if_neg hcond.1, if_pos hcond.2, if_true]
      split_ifs <;> rfl
    refine ⟨hstate, ?_, ?_, ?_, ?_⟩
    · rw [hstate, recalc_currentPosition]
    · rw [hstate, recalc_lastStepTime]
    · rw [hstate, recalc_targetPosition]
    · unfold run m_makeStepIfRequired
      simp only [if_neg hcond.1, if_pos hcond.2]
  · intro hf
    have hs : (m_makeStepIfRequired s now).2 = (s, []) := by
      unfold m_makeStepIfRequired at hf ⊢
      split_ifs at hf ⊢ <;> simp_all
    unfold run
    simp only [hf, hs]
    simp

/-- C10. Return value of `run`: for every state and clock reading, `run` returns `true` if and
only if, in the state after the poll, `m_speed ≠ 0` or
`m_targetPosition - m_currentPosition ≠ 0`; it returns `false` exactly when the state after
the poll is at the target with zero speed, whether or not a step was due. -/
theorem run_result (s : State) (now : Nat) :
    ((run s now).1 = true ↔
      ((run s now).2.1.m_speed ≠ 0 ∨
        (run s now).2.1.m_targetPosition - (run s now).2.1.m_currentPosition ≠ 0)) ∧
    ((run s now).1 = false ↔
      ((run s now).2.1.m_speed = 0 ∧
        (run s now).2.1.m_currentPosition = (run s now).2.1.m_targetPosition)) := by
  have h : (run s now).1 =
      decide ((run s now).2.1.m_speed ≠ 0 ∨ getTargetDistance (run s now).2.1 ≠ 0) := rfl
  constructor
  · rw [h]
    simp [getTargetDistance]
  · rw [h]
    simp only [getTargetDistance, decide_eq_false_iff_not, not_or, not_not]
    constructor
    · rintro ⟨h1, h2⟩
      exact ⟨h1, by omega⟩
    · rintro ⟨h1, h2⟩
      exact ⟨h1, by omega⟩

/-! ## The recalculation engine: arrival rule and phase decision -/

theorem truncQ_of_nonneg (q : ℚ) (h : 0 ≤ q) : truncQ q = ⌊q⌋ := by
  unfold truncQ
  rw [Rat.floor_def]
  exact Int.tdiv_eq_ediv (Rat.num_nonneg.2 h) (Int.ofNat_nonneg _)

theorem toUInt32_of_nonneg (q : ℚ) (h : 0 ≤ q) : ((toUInt32 q : Nat) : Int) = ⌊q⌋ := by
  unfold toUInt32
  rw [truncQ_of_nonneg q h]
  exact Int.toNat_of_nonneg (Int.floor_nonneg.2 h)

theorem recalc_of_arrived (s : State)
    (h : getTargetDistance s = 0 ∧ (m_getStepsToStop s : Int) ≤ 1) :
    m_recalculateSpeed s = { s with m_stepInterval := 0, m_speed := 0, m_stepNum := 0 } := by
  unfold m_recalculateSpeed
  simp only [if_pos h]

theorem recalc_stepInterval_of_moving (s : State)
    (h : ¬ (getTargetDistance s = 0 ∧ (m_getStepsToStop s : Int) ≤ 1)) :
    (m_recalculateSpeed s).m_stepInterval = toUInt32 (m_recalculateSpeed s).m_lastStepSize := by
  unfold m_recalculateSpeed
  simp only [if_neg h]
  split_ifs <;> rfl

theorem nextStepSize_stepNum (s : State) (d : Int) : (nextStepSize s d).m_stepNum = s.m_stepNum := by
  unfold nextStepSize
  split_ifs <;> rfl

theorem recalc_stepNum_of_moving (s : State)
    (h : ¬ (getTargetDistance s = 0 ∧ (m_getStepsToStop s : Int) ≤ 1)) :
    (m_recalculateSpeed s).m_stepNum
      = phaseDecision s (getTargetDistance s) (m_getStepsToStop s) + 1 := by
  unfold m_recalculateSpeed
  simp only [if_neg h]
  split_ifs <;> simp [nextStepSize_stepNum]

theorem phaseDecision_eq_policy (s : State) (d st : Int) :
    phaseDecision s d st = phasePolicy d st s.m_stepNum s.m_direction := by
  unfold phaseDecision phasePolicy
  rcases lt_trichotomy d 0 with hd | hd | hd
  · have h1 : ¬ d > 0 := by omega
    have h2 : d ≠ 0 := by omega
    have h3 : |d| = -d := abs_of_neg hd
    have h4 : ¬ (0 < d) := by omega
    cases hdir : s.m_direction <;> simp [h1, h2, h3, h4, hd, hdir]
  · subst hd
    simp
  · have h1 : d ≠ 0 := by omega
    have h2 : ¬ d < 0 := by omega
    have h3 : |d| = d := abs_of_pos hd
    cases hdir : s.m_direction <;> simp [h1, h2, h3, hd, hdir]

/-- C7. Phase decision: the ramp index that `m_recalculateSpeed` computes in lines 85-108
equals the stated policy `phasePolicy`, for positive and negative target distance alike
(begin decelerating with `-stepsToStop`, else resume accelerating with `-rampIndex`, else
unchanged, the last also for distance 0); in every state that has not arrived the new
`m_stepNum` is that value plus one. At the boundary `|d| = stepsToStop`, `d ≠ 0`, an
accelerating motor begins decelerating and a decelerating motor keeps its ramp index. -/
theorem phase_decision_policy (s : State) :
    (∀ d st : Int, phaseDecision s d st = phasePolicy d st s.m_stepNum s.m_direction) ∧
    (¬ (getTargetDistance s = 0 ∧ (m_getStepsToStop s : Int) ≤ 1) →
      (m_recalculateSpeed s).m_stepNum
        = phasePolicy (getTargetDistance s) (m_getStepsToStop s) s.m_stepNum s.m_direction + 1) ∧
    (∀ d st : Int, d ≠ 0 → |d| = st → 0 < s.m_stepNum → phaseDecision s d st = -st) ∧
    (∀ d st : Int, d ≠ 0 → |d| = st → s.m_stepNum < 0 → phaseDecision s d st = s.m_stepNum) ∧
    (∀ st : Int, phaseDecision s 0 st = s.m_stepNum) := by
  refine ⟨phaseDecision_eq_policy s, fun h => ?_, fun d st hd hst hn => ?_,
    fun d st hd hst hn => ?_, fun st => ?_⟩
  · rw [recalc_stepNum_of_moving s h, phaseDecision_eq_policy]
  · rw [phaseDecision_eq_policy]
    unfold phasePolicy
    rw [if_pos ⟨hd, hn, Or.inl (le_of_eq hst)⟩]
  · rw [phaseDecision_eq_policy]
    unfold phasePolicy
    have h1 : ¬ (0 < s.m_stepNum) := by omega
    have h2 : ¬ (|d| > st) := by omega
    simp [h1, h2]
  · unfold phaseDecision
    simp

/-! ## The stand-in for `sqrt` -/

theorem sqrtLoop_eq_iter (fuel n guess : Nat) (h : guess ≤ fuel) :
    sqrtLoop fuel n guess = Nat.sqrt.iter n guess := by
  induction fuel generalizing guess with
  | zero =>
    obtain rfl : guess = 0 := by omega
    unfold Nat.sqrt.iter
    simp [sqrtLoop]
  | succ k ih =>
    unfold Nat.sqrt.iter
    simp only [sqrtLoop]
    split_ifs with h1
    · exact ih _ (by omega)
    · rfl

theorem natSqrt_eq_sqrt (n : Nat) : natSqrt n = Nat.sqrt n := by
  unfold natSqrt
  rw [sqrtLoop_eq_iter n n n le_rfl]
  refine Nat.eq_sqrt.2 ⟨Nat.sqrt.iter_sq_le _ _, Nat.sqrt.lt_iter_succ_sq _ _ ?_⟩
  nlinarith

/-! ## The step-timing formula -/

theorem nextStepSize_lastStepSize (s : State) (d : Int) :
    (nextStepSize s d).m_lastStepSize =
      if s.m_stepNum = 0 then s.m_initialStepSize
      else max s.m_minStepSize
        (s.m_lastStepSize - (2 * s.m_lastStepSize) / (4 * (s.m_stepNum : ℚ) + 1)) := by
  unfold nextStepSize
  by_cases h1 : s.m_stepNum = 0
  · simp only [if_pos h1]
  · simp only [if_neg h1]
    by_cases h2 : s.m_lastStepSize - (2 * s.m_lastStepSize) / (4 * (s.m_stepNum : ℚ) + 1)
        < s.m_minStepSize
    · rw [if_pos h2, max_eq_left (le_of_lt h2)]
    · rw [if_neg h2, max_eq_right (not_lt.1 h2)]

theorem recalc_lastStepSize_of_moving (s : State)
    (h : ¬ (getTargetDistance s = 0 ∧ (m_getStepsToStop s : Int) ≤ 1)) :
    (m_recalculateSpeed s).m_lastStepSize =
      if phaseDecision s (getTargetDistance s) (m_getStepsToStop s) = 0 then s.m_initialStepSize
      else max s.m_minStepSize
        (s.m_lastStepSize - (2 * s.m_lastStepSize)
          / (4 * (phaseDecision s (getTargetDistance s) (m_getStepsToStop s) : ℚ) + 1)) := by
  have h2 : (m_recalculateSpeed s).m_lastStepSize =
      (nextStepSize { s with m_stepNum := phaseDecision s (getTargetDistance s) (m_getStepsToStop s) }
        (getTargetDistance s)).m_lastStepSize := by
    unfold m_recalculateSpeed
    simp only [if_neg h]
    split_ifs <;> rfl
  rw [h2, nextStepSize_lastStepSize]

/-- C8, as stated, fails: in `decelerationEntry` (reached from rest by a target command, one
step and a second target command) the recalculation engine does not stop, the ramp index
after the phase decision is `-1`, and the new `m_lastStepSize` is `67600`, while the formula
with the unsigned magnitude `n = 1` gives `max 1000 (40560 - 2 * 40560 / 5) = 24336`. -/
theorem step_formula_unsigned_counterexample :
    ¬ (getTargetDistance decelerationEntry = 0 ∧ (m_getStepsToStop decelerationEntry : Int) ≤ 1) ∧
    decelerationEntry.m_lastStepSize = 40560 ∧
    decelerationEntry.m_minStepSize = 1000 ∧
    phaseDecision decelerationEntry (getTargetDistance decelerationEntry)
      (m_getStepsToStop decelerationEntry) = -1 ∧
    (m_recalculateSpeed decelerationEntry).m_lastStepSize = 67600 ∧
    max decelerationEntry.m_minStepSize
      (decelerationEntry.m_lastStepSize - (2 * decelerationEntry.m_lastStepSize)
        / (4 * ((|phaseDecision decelerationEntry (getTargetDistance decelerationEntry)
            (m_getStepsToStop decelerationEntry)| : Int) : ℚ) + 1)) = 24336 ∧
    (m_recalculateSpeed decelerationEntry).m_lastStepSize ≠
      max decelerationEntry.m_minStepSize
        (decelerationEntry.m_lastStepSize - (2 * decelerationEntry.m_lastStepSize)
          / (4 * ((|phaseDecision decelerationEntry (getTargetDistance decelerationEntry)
              (m_getStepsToStop decelerationEntry)| : Int) : ℚ) + 1)) := by
  decide!

/-- C8, amended. Step-timing formula: in every state in which the recalculation engine does
not stop, with `r` the signed ramp index after the phase decision: if `r ≠ 0` the new
`m_lastStepSize` is `max m_minStepSize (L - (2 * L) / (4 * r + 1))` for the previous
`m_lastStepSize = L` (the index enters with its sign, so for `r ≥ 1` this is the formula with
`n = |r|` and for `r ≤ -1` the denominator is `1 - 4 * |r|`); if `r = 0` it is
`m_initialStepSize`. In both cases `m_stepInterval` is the truncated new `m_lastStepSize`. -/
theorem step_formula_signed (s : State)
    (h : ¬ (getTargetDistance s = 0 ∧ (m_getStepsToStop s : Int) ≤ 1)) :
    (phaseDecision s (getTargetDistance s) (m_getStepsToStop s) ≠ 0 →
      (m_recalculateSpeed s).m_lastStepSize =
        max s.m_minStepSize
          (s.m_lastStepSize - (2 * s.m_lastStepSize)
            / (4 * (phaseDecision s (getTargetDistance s) (m_getStepsToStop s) : ℚ) + 1))) ∧
    (1 ≤ phaseDecision s (getTargetDistance s) (m_getStepsToStop s) →
      (m_recalculateSpeed s).m_lastStepSize =
        max s.m_minStepSize
          (s.m_lastStepSize - (2 * s.m_lastStepSize)
            / (4 * ((|phaseDecision s (getTargetDistance s) (m_getStepsToStop s)| : Int) : ℚ) + 1))) ∧
    (phaseDecision s (getTargetDistance s) (m_getStepsToStop s) ≤ -1 →
      (m_recalculateSpeed s).m_lastStepSize =
        max s.m_minStepSize
          (s.m_lastStepSize - (2 * s.m_lastStepSize)
            / (1 - 4 * ((|phaseDecision s (getTargetDistance s) (m_getStepsToStop s)| : Int) : ℚ)))) ∧
    (phaseDecision s (getTargetDistance s) (m_getStepsToStop s) = 0 →
      (m_recalculateSpeed s).m_lastStepSize = s.m_initialStepSize) ∧
    (m_recalculateSpeed s).m_stepInterval = toUInt32 (m_recalculateSpeed s).m_lastStepSize := by
  have hL := recalc_lastStepSize_of_moving s h
  refine ⟨fun hr => ?_, fun hr => ?_, fun hr => ?_, fun hr => ?_,
    recalc_stepInterval_of_moving s h⟩
  · rw [hL, if_neg hr]
  · rw [hL, if_neg (by omega), abs_of_nonneg (by omega)]
  · rw [hL, if_neg (by omega), abs_of_neg (by omega)]
    congr 3
    push_cast
    ring
  · rw [hL, if_pos hr]

theorem step_formula_signed_witness :
    ¬ (getTargetDistance decelerationEntry = 0 ∧ (m_getStepsToStop decelerationEntry : Int) ≤ 1) ∧
    (phaseDecision decelerationEntry (getTargetDistance decelerationEntry)
        (m_getStepsToStop decelerationEntry) ≠ 0 →
      (m_recalculateSpeed decelerationEntry).m_lastStepSize =
        max decelerationEntry.m_minStepSize
          (decelerationEntry.m_lastStepSize - (2 * decelerationEntry.m_lastStepSize)
            / (4 * (phaseDecision decelerationEntry (getTargetDistance decelerationEntry)
                (m_getStepsToStop decelerationEntry) : ℚ) + 1))) :=
  ⟨by decide!, (step_formula_signed decelerationEntry (by decide!)).1⟩

/-! ## Reversal -/

theorem nextStepSize_direction (s : State) (d : Int) :
    (nextStepSize s d).m_direction =
      if s.m_stepNum = 0 then (if d > 0 then CLOCKWISE else COUNTER_CLOCKWISE)
      else s.m_direction := by
  unfold nextStepSize
  split_ifs <;> rfl

theorem recalc_direction_of_moving (s : State)
    (h : ¬ (getTargetDistance s = 0 ∧ (m_getStepsToStop s : Int) ≤ 1)) :
    (m_recalculateSpeed s).m_direction =
      if phaseDecision s (getTargetDistance s) (m_getStepsToStop s) = 0 then
        (if getTargetDistance s > 0 then CLOCKWISE else COUNTER_CLOCKWISE)
      else s.m_direction := by
  have h2 : (m_recalculateSpeed s).m_direction =
      (nextStepSize { s with m_stepNum := phaseDecision s (getTargetDistance s) (m_getStepsToStop s) }
        (getTargetDistance s)).m_direction := by
    unfold m_recalculateSpeed
    simp only [if_neg h]
    split_ifs <;> rfl
  rw [h2, nextStepSize_direction]

theorem recalc_speed_of_moving (s : State)
    (h : ¬ (getTargetDistance s = 0 ∧ (m_getStepsToStop s : Int) ≤ 1)) :
    (m_recalculateSpeed s).m_speed =
      if (m_recalculateSpeed s).m_direction = COUNTER_CLOCKWISE then
        1000000 / (m_recalculateSpeed s).m_lastStepSize * -1
      else 1000000 / (m_recalculateSpeed s).m_lastStepSize := by
  unfold m_recalculateSpeed
  simp only [if_neg h]
  split_ifs <;> rfl

theorem recalc_direction_of_arrived (s : State)
    (h : getTargetDistance s = 0 ∧ (m_getStepsToStop s : Int) ≤ 1) :
    (m_recalculateSpeed s).m_direction = s.m_direction := by
  rw [recalc_of_arrived s h]

/-- The recurrence keeps a positive step size positive: for every non-zero integer index the
factor `1 - 2 / (4 * r + 1)` is positive. -/
theorem recurrence_pos (l : ℚ) (r : Int) (hl : 0 < l) (hr : r ≠ 0) :
    0 < l - (2 * l) / (4 * (r : ℚ) + 1) := by
  have hfac : l - (2 * l) / (4 * (r : ℚ) + 1) = l * ((4 * (r : ℚ) - 1) / (4 * (r : ℚ) + 1)) := by
    have hne : (4 * (r : ℚ) + 1) ≠ 0 := by
      have : (4 * r + 1 : Int) ≠ 0 := by omega
      exact_mod_cast this
    field_simp
    ring
  rw [hfac]
  apply mul_pos hl
  rcases lt_or_gt_of_ne hr with h | h
  · have h1 : (r : ℚ) ≤ -1 := by exact_mod_cast (by omega : r ≤ -1)
    exact div_pos_of_neg_of_neg (by linarith) (by linarith)
  · have h1 : (1 : ℚ) ≤ r := by exact_mod_cast (by omega : 1 ≤ r)
    exact div_pos (by linarith) (by linarith)

/-- C1 (speed ceiling) fails on the first step of a ramp. A driver is constructed, given
`setMaxSpeed 10` and `setAcceleration 200` (so `m_minStepSize = 1000000 / 10 = 100000` and
`m_initialStepSize = 67600`) and sent one step away. The recalculation engine seeds
`m_lastStepSize` with `m_initialStepSize` without the clamp of the recurrence branch: a step
is scheduled with `m_lastStepSize = 67600 < m_minStepSize` and `m_speed = 2500 / 169`, above
`m_maxSpeed = 10`. The same happens with the operations of the sources alone: after
`setSpeed 10` and one poll that makes a step, the engine starts a ramp at speed
`-2500 / 169`. It also fails in the recurrence branch of a driver on which `setMaxSpeed` was
never called: the constructor leaves `m_minStepSize = 1` beside `m_maxSpeed = 200`, and with
`setAcceleration 20000` the second step of a ramp is scheduled at `m_speed = 125000 / 507`,
above `200`. -/
theorem speed_ceiling_broken_on_first_step :
    ((moveTo (configured 10 200) 1).m_maxSpeed = 10 ∧
      (moveTo (configured 10 200) 1).m_minStepSize
        = 1000000 / (moveTo (configured 10 200) 1).m_maxSpeed ∧
      (moveTo (configured 10 200) 1).m_initialStepSize = 67600 ∧
      (moveTo (configured 10 200) 1).m_lastStepSize = 67600 ∧
      (moveTo (configured 10 200) 1).m_stepInterval = 67600 ∧
      (moveTo (configured 10 200) 1).m_speed = 2500 / 169 ∧
      (moveTo (configured 10 200) 1).m_lastStepSize
        < (moveTo (configured 10 200) 1).m_minStepSize ∧
      (moveTo (configured 10 200) 1).m_maxSpeed < |(moveTo (configured 10 200) 1).m_speed|) ∧
    ((run (setSpeed (configured 10 200) 10) 100000).2.1.m_speed = -2500 / 169 ∧
      (run (setSpeed (configured 10 200) 10) 100000).2.1.m_maxSpeed
        < |(run (setSpeed (configured 10 200) 10) 100000).2.1.m_speed|) ∧
    ((constructedOnly 20000).m_maxSpeed = 200 ∧
      (constructedOnly 20000).m_minStepSize = 1 ∧
      (pollWhenDue (moveTo (constructedOnly 20000) 5)).m_stepNum = 2 ∧
      (pollWhenDue (moveTo (constructedOnly 20000) 5)).m_stepInterval = 4056 ∧
      (pollWhenDue (moveTo (constructedOnly 20000) 5)).m_speed = 125000 / 507 ∧
      (pollWhenDue (moveTo (constructedOnly 20000) 5)).m_maxSpeed
        < |(pollWhenDue (moveTo (constructedOnly 20000) 5)).m_speed|) := by
  decide!

/-! ## Positioning moves from rest: the ramp invariant -/

theorem rampBound_succ (n : Nat) (hn : 1 ≤ n) :
    rampBound (n + 1) = rampBound n * ((4 * (n : ℚ) + 1) / (4 * (n : ℚ) - 1)) ^ 2 := by
  obtain ⟨m, rfl⟩ : ∃ m, n = m + 1 := ⟨n - 1, by omega⟩
  simp only [rampBound]
  push_cast
  ring

theorem rampBound_pos (n : Nat) : 0 < rampBound n := by
  induction n using Nat.strongRecOn with
  | _ n ih =>
    match n with
    | 0 => norm_num [rampBound]
    | 1 => norm_num [rampBound]
    | m + 2 =>
      simp only [rampBound]
      have h1 := ih (m + 1) (by omega)
      have h2 : (0 : ℚ) < 4 * ((m : ℚ) + 1) - 1 := by
        have : (0 : ℚ) ≤ m := Nat.cast_nonneg m
        linarith
      positivity

/-- The closed bound `n - 1/2 + 1/(32 n)` is preserved by one step of the recurrence. -/
theorem closedBound_step (n : ℚ) (hn : 1 ≤ n) :
    (n - 1 / 2 + 1 / (32 * n)) * ((4 * n + 1) / (4 * n - 1)) ^ 2
      ≤ (n + 1) - 1 / 2 + 1 / (32 * (n + 1)) := by
  have h1 : (0 : ℚ) < 4 * n - 1 := by linarith
  have h2 : (0 : ℚ) < n := by linarith
  have h3 : (0 : ℚ) < n + 1 := by linarith
  rw [div_pow, ← mul_div_assoc, div_le_iff₀ (by positivity)]
  field_simp
  rw [div_le_div_iff₀ (by positivity) (by positivity)]
  nlinarith [mul_pos h2 h2, mul_pos (mul_pos h2 h2) h2, mul_pos (mul_pos h2 h2) (mul_pos h2 h2)]

/-- From index 10 on, `rampBound` stays below the closed bound `n - 1/2 + 1/(32 n)`. -/
theorem rampBound_le_closed (n : Nat) (hn : 10 ≤ n) :
    rampBound n ≤ (n : ℚ) - 1 / 2 + 1 / (32 * (n : ℚ)) := by
  induction n, hn using Nat.le_induction with
  | base => norm_num [rampBound]
  | succ m hm ih =>
    rw [rampBound_succ m (by omega)]
    have hm1 : (1 : ℚ) ≤ m := by exact_mod_cast (by omega : 1 ≤ m)
    have hpos : (0 : ℚ) ≤ ((4 * (m : ℚ) + 1) / (4 * (m : ℚ) - 1)) ^ 2 := by positivity
    calc rampBound m * ((4 * (m : ℚ) + 1) / (4 * (m : ℚ) - 1)) ^ 2
        ≤ ((m : ℚ) - 1 / 2 + 1 / (32 * (m : ℚ))) * ((4 * (m : ℚ) + 1) / (4 * (m : ℚ) - 1)) ^ 2 :=
          mul_le_mul_of_nonneg_right ih hpos
      _ ≤ ((m : ℚ) + 1) - 1 / 2 + 1 / (32 * ((m : ℚ) + 1)) := closedBound_step _ hm1
      _ = ((m + 1 : ℕ) : ℚ) - 1 / 2 + 1 / (32 * ((m + 1 : ℕ) : ℚ)) := by push_cast; ring

/-- On ramp index `n ≥ 1` the bound stays below `(4 n - 1)^2 / (16 n)`, the value up to which
one step of the recurrence raises the energy by at most one. -/
theorem rampBound_le (n : Nat) (hn : 1 ≤ n) :
    rampBound n ≤ (4 * (n : ℚ) - 1) ^ 2 / (16 * (n : ℚ)) := by
  rcases Nat.lt_or_ge n 10 with h | h
  · interval_cases n <;> norm_num [rampBound]
  · have h1 := rampBound_le_closed n h
    have hn1 : (1 : ℚ) ≤ n := by exact_mod_cast hn
    have h2 : (n : ℚ) - 1 / 2 + 1 / (32 * (n : ℚ)) ≤ (4 * (n : ℚ) - 1) ^ 2 / (16 * (n : ℚ)) := by
      rw [le_div_iff₀ (by positivity)]
      field_simp
      rw [div_le_iff₀ (by positivity)]
      nlinarith
    linarith

/-- One accelerating step raises an energy below the bound by at most one. -/
theorem accel_energy_step (e : ℚ) (n : Nat) (hn : 1 ≤ n)
    (hb : e ≤ rampBound n) :
    e * ((4 * (n : ℚ) + 1) / (4 * (n : ℚ) - 1)) ^ 2 ≤ e + 1 ∧
    e * ((4 * (n : ℚ) + 1) / (4 * (n : ℚ) - 1)) ^ 2 ≤ rampBound (n + 1) := by
  have hn1 : (1 : ℚ) ≤ n := by exact_mod_cast hn
  have hd : (0 : ℚ) < 4 * (n : ℚ) - 1 := by linarith
  have hT := le_trans hb (rampBound_le n hn)
  constructor
  · rw [le_div_iff₀ (by positivity)] at hT
    rw [div_pow, ← mul_div_assoc, div_le_iff₀ (by positivity)]
    nlinarith
  · rw [rampBound_succ n hn]
    exact mul_le_mul_of_nonneg_right hb (by positivity)

/-- One decelerating step at index `-k` takes an energy in `[k, k + 1)` into `[k - 1, k)`. -/
theorem decel_energy_step (e k : ℚ) (hk1 : 1 ≤ k) (h1 : k ≤ e) (h2 : e < k + 1) :
    k - 1 ≤ e * ((4 * k - 1) / (4 * k + 1)) ^ 2 ∧
    e * ((4 * k - 1) / (4 * k + 1)) ^ 2 < k := by
  have hd : (0 : ℚ) < 4 * k + 1 := by linarith
  constructor
  · rw [div_pow, ← mul_div_assoc, le_div_iff₀ (by positivity)]
    nlinarith
  · rw [div_pow, ← mul_div_assoc, div_lt_iff₀ (by positivity)]
    nlinarith

/-! ### Frame and shape of one recalculation on the ramp -/

theorem recalc_acceleration (s : State) :
    (m_recalculateSpeed s).m_acceleration = s.m_acceleration := by
  unfold m_recalculateSpeed nextStepSize
  dsimp only
  split_ifs <;> rfl

theorem recalc_minStepSize (s : State) :
    (m_recalculateSpeed s).m_minStepSize = s.m_minStepSize := by
  unfold m_recalculateSpeed nextStepSize
  dsimp only
  split_ifs <;> rfl

theorem recalc_initialStepSize (s : State) :
    (m_recalculateSpeed s).m_initialStepSize = s.m_initialStepSize := by
  unfold m_recalculateSpeed nextStepSize
  dsimp only
  split_ifs <;> rfl

theorem recalc_speed_sq_of_moving (s : State)
    (h : ¬ (getTargetDistance s = 0 ∧ (m_getStepsToStop s : Int) ≤ 1)) :
    (m_recalculateSpeed s).m_speed * (m_recalculateSpeed s).m_speed =
      1000000 / (m_recalculateSpeed s).m_lastStepSize
        * (1000000 / (m_recalculateSpeed s).m_lastStepSize) := by
  rw [recalc_speed_of_moving s h]
  split_ifs <;> ring

theorem toUInt32_zero : toUInt32 0 = 0 := by decide

theorem toUInt32_mono (a b : ℚ) (hab : a ≤ b) : toUInt32 a ≤ toUInt32 b := by
  by_cases ha : 0 ≤ a
  · have h1 := toUInt32_of_nonneg a ha
    have h2 := toUInt32_of_nonneg b (le_trans ha hab)
    have h3 : ⌊a⌋ ≤ ⌊b⌋ := Int.floor_mono hab
    omega
  · have hneg : a < 0 := not_le.1 ha
    have hnum : a.num < 0 := Rat.num_neg.2 hneg
    have h0 : toUInt32 a = 0 := by
      unfold toUInt32 truncQ
      have hle : Int.tdiv a.num a.den ≤ 0 := by
        have hd : (0 : Int) < a.den := by exact_mod_cast a.den_pos
        have : Int.tdiv a.num a.den = -(Int.tdiv (-a.num) a.den) := by
          rw [Int.neg_tdiv, neg_neg]
        rw [this]
        have := Int.tdiv_nonneg (by omega : (0 : Int) ≤ -a.num) (le_of_lt hd)
        omega
      omega
    rw [h0]
    exact Nat.zero_le _

theorem toUInt32_of_nonpos (q : ℚ) (h : q ≤ 0) : toUInt32 q = 0 := by
  have h1 := toUInt32_mono q 0 h
  rw [toUInt32_zero] at h1
  omega

theorem stepsToStop_eq_floor (s : State) (ha : 0 < s.m_acceleration) :
    ((m_getStepsToStop s : Nat) : Int) = ⌊energy s⌋ := by
  unfold m_getStepsToStop energy
  exact toUInt32_of_nonneg _ (div_nonneg (mul_self_nonneg _) (by linarith))

theorem energy_nonneg (s : State) (ha : 0 < s.m_acceleration) : 0 ≤ energy s :=
  div_nonneg (mul_self_nonneg _) (by linarith)

theorem forward_advance (s : State) (now : Nat) : forward (advance s now) = forward s - 1 := by
  unfold forward advance getTargetDistance
  by_cases h : s.m_direction = CLOCKWISE
  · simp only [h, if_true]
    omega
  · simp only [h, if_false]
    omega

theorem run_of_fires (s : State) (now : Nat) (h : (m_makeStepIfRequired s now).1 = true) :
    (run s now).2.1 = m_recalculateSpeed (advance s now) := by
  have hcond := (makeStep_fires_iff s now).1 h
  unfold run m_makeStepIfRequired advance
  simp only [if_neg hcond.1, if_pos hcond.2, if_true]
  split_ifs <;> rfl

theorem phaseDecision_toward (a : State) (st : Int) (hf : 1 ≤ forward a) :
    phaseDecision a (getTargetDistance a) st =
      if 0 < a.m_stepNum ∧ forward a ≤ st then -st
      else if a.m_stepNum < 0 ∧ forward a > st then -a.m_stepNum
      else a.m_stepNum := by
  unfold forward at hf ⊢
  unfold phaseDecision
  by_cases hdir : a.m_direction = CLOCKWISE
  · rw [if_pos hdir] at hf
    simp only [if_pos hdir]
    have hpos : getTargetDistance a > 0 := by omega
    simp [hpos, hdir]
  · rw [if_neg hdir] at hf
    simp only [if_neg hdir]
    have hnpos : ¬ getTargetDistance a > 0 := by omega
    have hneg : getTargetDistance a < 0 := by omega
    have hccw : a.m_direction = COUNTER_CLOCKWISE := by
      cases hd : a.m_direction
      · exact absurd hd hdir
      · rfl
    simp [hnpos, hneg, hccw]

/-- One recalculation away from the target with a non-zero ramp index `r` after the phase
decision: the direction is kept, the step size follows the recurrence with its clamp, and
the remaining distance in the direction of motion is unchanged. -/
theorem recalc_ramp_shape (a : State) (r : Int) (hd : getTargetDistance a ≠ 0)
    (hr : phaseDecision a (getTargetDistance a) (m_getStepsToStop a) = r) (hr0 : r ≠ 0) :
    (m_recalculateSpeed a).m_direction = a.m_direction ∧
    (m_recalculateSpeed a).m_lastStepSize =
      max a.m_minStepSize (a.m_lastStepSize - (2 * a.m_lastStepSize) / (4 * (r : ℚ) + 1)) ∧
    (m_recalculateSpeed a).m_stepNum = r + 1 ∧
    (m_recalculateSpeed a).m_stepInterval = toUInt32 (m_recalculateSpeed a).m_lastStepSize ∧
    (m_recalculateSpeed a).m_speed * (m_recalculateSpeed a).m_speed =
      1000000 / (m_recalculateSpeed a).m_lastStepSize
        * (1000000 / (m_recalculateSpeed a).m_lastStepSize) ∧
    forward (m_recalculateSpeed a) = forward a := by
  have hmov : ¬ (getTargetDistance a = 0 ∧ (m_getStepsToStop a : Int) ≤ 1) := fun h => hd h.1
  have hdir := recalc_direction_of_moving a hmov
  have hlast := recalc_lastStepSize_of_moving a hmov
  have hnum := recalc_stepNum_of_moving a hmov
  rw [hr] at hdir hlast hnum
  rw [if_neg hr0] at hdir hlast
  refine ⟨hdir, hlast, hnum, recalc_stepInterval_of_moving a hmov,
    recalc_speed_sq_of_moving a hmov, ?_⟩
  unfold forward getTargetDistance
  rw [hdir, recalc_targetPosition, recalc_currentPosition]

theorem energy_of_speed_sq (s : State)
    (h : s.m_speed * s.m_speed = 1000000 / s.m_lastStepSize * (1000000 / s.m_lastStepSize)) :
    energy s = 1000000 / s.m_lastStepSize * (1000000 / s.m_lastStepSize) / (2 * s.m_acceleration) := by
  unfold energy
  rw [h]

/-- The last step of a move: from a state on the ramp with one step to go, the step and its
recalculation leave the driver idle at the target. -/
theorem step_arrives (s : State) (h : OnRamp s) (now : Nat) (h1 : forward s = 1) :
    IdleAtTarget (m_recalculateSpeed (advance s now)) ∧
      (m_recalculateSpeed (advance s now)).m_targetPosition = s.m_targetPosition := by
  have hfa := forward_advance s now
  have hd : getTargetDistance (advance s now) = 0 := by
    unfold forward at hfa h1
    have hdir : (advance s now).m_direction = s.m_direction := rfl
    rw [hdir] at hfa
    split_ifs at hfa h1 <;> omega
  have hE : energy (advance s now) = energy s := rfl
  have hfloor := stepsToStop_eq_floor (advance s now) h.acceleration_pos
  have hlt : energy s < 2 := by
    rcases h.ramp with ⟨_, _, hlt, _⟩ | ⟨hn, _, _, hhi, hfw⟩
    · rw [h1] at hlt
      norm_num at hlt
      exact hlt
    · have hk : (-s.m_stepNum : Int) ≤ 1 := by omega
      have hk' : ((-s.m_stepNum : Int) : ℚ) ≤ 1 := by exact_mod_cast hk
      linarith
  have hst : (m_getStepsToStop (advance s now) : Int) ≤ 1 := by
    rw [hfloor, hE]
    have : ⌊energy s⌋ < 2 := Int.floor_lt.2 (by exact_mod_cast hlt)
    omega
  rw [recalc_of_arrived _ ⟨hd, hst⟩]
  refine ⟨⟨?_, rfl, rfl, rfl⟩, rfl⟩
  unfold getTargetDistance at hd
  show (advance s now).m_currentPosition = (advance s now).m_targetPosition
  omega

theorem recurrence_accel (l : ℚ) (n : Int) (hn : 1 ≤ n) :
    l - (2 * l) / (4 * (n : ℚ) + 1) = l * ((4 * (n : ℚ) - 1) / (4 * (n : ℚ) + 1)) := by
  have h1 : (1 : ℚ) ≤ n := by exact_mod_cast hn
  have h2 : (4 * (n : ℚ) + 1) ≠ 0 := by linarith
  field_simp
  ring

theorem recurrence_decel (l : ℚ) (k : Int) (hk : 1 ≤ k) :
    l - (2 * l) / (4 * ((-k : Int) : ℚ) + 1) = l * ((4 * (k : ℚ) + 1) / (4 * (k : ℚ) - 1)) := by
  have h1 : (1 : ℚ) ≤ k := by exact_mod_cast hk
  have h3 : (4 * (k : ℚ) - 1) ≠ 0 := by linarith
  have h4 : 4 * ((-k : Int) : ℚ) + 1 = -(4 * (k : ℚ) - 1) := by
    push_cast
    ring
  rw [h4, div_neg]
  field_simp
  ring

theorem energy_scaled (l g a : ℚ) (hl : 0 < l) (hg : 0 < g) (ha : 0 < a) :
    1000000 / (l * g) * (1000000 / (l * g)) / (2 * a)
      = 1000000 / l * (1000000 / l) / (2 * a) * (1 / g) ^ 2 := by
  field_simp
  ring

theorem energy_antitone (l l' a : ℚ) (hl : 0 < l) (hle : l ≤ l') (ha : 0 < a) :
    1000000 / l' * (1000000 / l') / (2 * a) ≤ 1000000 / l * (1000000 / l) / (2 * a) := by
  have h1 : (1000000 : ℚ) / l' ≤ 1000000 / l :=
    div_le_div_of_nonneg_left (by norm_num) hl hle
  have h2 : (0 : ℚ) ≤ 1000000 / l' := div_nonneg (by norm_num) (by linarith)
  exact div_le_div_of_nonneg_right (mul_le_mul h1 h1 h2 (le_trans h2 h1)) (by linarith)

/-- Any earlier step of a move: from a state on the ramp with at least two steps to go, the
step and its recalculation leave the driver on the ramp, one step closer, in the same
direction (it keeps accelerating, begins decelerating or keeps decelerating; it never resumes
accelerating). -/
theorem step_continues (s : State) (h : OnRamp s) (now : Nat) (h2 : 2 ≤ forward s) :
    OnRamp (m_recalculateSpeed (advance s now)) ∧
    forward (m_recalculateSpeed (advance s now)) = forward s - 1 ∧
    (m_recalculateSpeed (advance s now)).m_direction = s.m_direction ∧
    (m_recalculateSpeed (advance s now)).m_targetPosition = s.m_targetPosition := by
  have hfa : forward (advance s now) = forward s - 1 := forward_advance s now
  have hf1 : 1 ≤ forward (advance s now) := by omega
  have hd : getTargetDistance (advance s now) ≠ 0 := by
    intro h0
    unfold forward at hf1
    rw [h0] at hf1
    split_ifs at hf1 <;> omega
  have hA := h.acceleration_pos
  have hfloor : ((m_getStepsToStop (advance s now) : Nat) : Int) = ⌊energy s⌋ :=
    stepsToStop_eq_floor (advance s now) hA
  have hEL := energy_of_speed_sq s h.speed_sq
  have hph := phaseDecision_toward (advance s now) (m_getStepsToStop (advance s now)) hf1
  have hLpos : 0 < s.m_lastStepSize := by linarith [h.lastStep_ge]
  have hacc : (m_recalculateSpeed (advance s now)).m_acceleration = s.m_acceleration :=
    recalc_acceleration _
  have hmin : (m_recalculateSpeed (advance s now)).m_minStepSize = s.m_minStepSize :=
    recalc_minStepSize _
  have htgt : (m_recalculateSpeed (advance s now)).m_targetPosition = s.m_targetPosition :=
    recalc_targetPosition _
  have hnumA : (advance s now).m_stepNum = s.m_stepNum := rfl
  have hLA : (advance s now).m_lastStepSize = s.m_lastStepSize := rfl
  have hmA : (advance s now).m_minStepSize = s.m_minStepSize := rfl
  have hdA : (advance s now).m_direction = s.m_direction := rfl
  rw [hnumA] at hph
  rcases h.ramp with ⟨hn, hb, hlt, hclamp⟩ | ⟨hn, hclamp, hlo, hhi, hfw⟩
  · -- accelerating
    have hfl : ⌊energy s⌋ ≤ forward s := by
      have : ⌊energy s⌋ < forward s + 1 := Int.floor_lt.2 (by push_cast; exact hlt)
      omega
    by_cases ht : forward (advance s now) ≤ (m_getStepsToStop (advance s now) : Int)
    · -- begin decelerating
      have hr : phaseDecision (advance s now) (getTargetDistance (advance s now))
          (m_getStepsToStop (advance s now)) = -(m_getStepsToStop (advance s now) : Int) := by
        rw [hph, if_pos ⟨by omega, ht⟩]
      have hs1 : (1 : Int) ≤ (m_getStepsToStop (advance s now) : Int) := by omega
      have hn2 : 2 ≤ s.m_stepNum := by
        by_contra hlt2
        have h1 : s.m_stepNum = 1 := by omega
        rw [h1] at hb
        have hbb : energy s < ((1 : Int) : ℚ) := by
          have : rampBound (1 : Int).toNat = 5471 / 10000 := rfl
          rw [this] at hb
          push_cast
          linarith
        have := Int.floor_lt.2 hbb
        omega
      obtain ⟨hdir, hlast, hnum, hint, hsq, hfw'⟩ :=
        recalc_ramp_shape (advance s now) _ hd hr (by omega)
      have hLm := hclamp hn2
      rw [hLA, hmA, recurrence_decel _ _ hs1] at hlast
      have hk1 : (1 : ℚ) ≤ ((m_getStepsToStop (advance s now) : Int) : ℚ) := by exact_mod_cast hs1
      have hg : (1 : ℚ) ≤ (4 * ((m_getStepsToStop (advance s now) : Int) : ℚ) + 1)
          / (4 * ((m_getStepsToStop (advance s now) : Int) : ℚ) - 1) := by
        rw [le_div_iff₀ (by linarith)]
        linarith
      have hLL : s.m_lastStepSize ≤ s.m_lastStepSize
          * ((4 * ((m_getStepsToStop (advance s now) : Int) : ℚ) + 1)
            / (4 * ((m_getStepsToStop (advance s now) : Int) : ℚ) - 1)) :=
        le_mul_of_one_le_right (le_of_lt hLpos) hg
      rw [max_eq_right (le_trans hLm hLL)] at hlast
      have hE' : energy (m_recalculateSpeed (advance s now)) =
          energy s * ((4 * ((m_getStepsToStop (advance s now) : Int) : ℚ) - 1)
            / (4 * ((m_getStepsToStop (advance s now) : Int) : ℚ) + 1)) ^ 2 := by
        rw [energy_of_speed_sq _ hsq, hlast, hacc, energy_scaled _ _ _ hLpos (by linarith) hA, hEL,
          one_div_div]
      have hfle : (((m_getStepsToStop (advance s now) : Nat) : Int) : ℚ) ≤ energy s := by
        rw [hfloor]
        exact Int.floor_le _
      have hflt : energy s < (((m_getStepsToStop (advance s now) : Nat) : Int) : ℚ) + 1 := by
        rw [hfloor]
        exact Int.lt_floor_add_one _
      obtain ⟨hlo', hhi'⟩ := decel_energy_step (energy s) _ hk1 hfle hflt
      refine ⟨⟨by rw [hacc]; exact hA, by rw [hmin]; exact h.minStep_ge,
        by rw [hlast]; linarith [h.lastStep_ge], hsq, hint, by rw [hfw']; exact hf1,
        Or.inr ⟨by rw [hnum]; omega, by rw [hmin, hlast]; exact le_trans hLm hLL, ?_, ?_, ?_⟩⟩,
        by rw [hfw', hfa], hdir.trans hdA, htgt⟩
      · rw [hE', hnum]
        push_cast
        push_cast at hlo'
        linarith
      · rw [hE', hnum]
        push_cast
        push_cast at hhi'
        linarith
      · rw [hfw', hnum]
        omega
    · -- keep accelerating
      have hr : phaseDecision (advance s now) (getTargetDistance (advance s now))
          (m_getStepsToStop (advance s now)) = s.m_stepNum := by
        rw [hph, if_neg (fun hc => ht hc.2), if_neg (fun hc => by omega)]
      obtain ⟨hdir, hlast, hnum, hint, hsq, hfw'⟩ :=
        recalc_ramp_shape (advance s now) _ hd hr (by omega)
      rw [hLA, hmA, recurrence_accel _ _ hn] at hlast
      have hn1 : (1 : ℚ) ≤ (s.m_stepNum : ℚ) := by exact_mod_cast hn
      have hgpos : (0 : ℚ) < (4 * (s.m_stepNum : ℚ) - 1) / (4 * (s.m_stepNum : ℚ) + 1) :=
        div_pos (by linarith) (by linarith)
      have hLg : 0 < s.m_lastStepSize * ((4 * (s.m_stepNum : ℚ) - 1) / (4 * (s.m_stepNum : ℚ) + 1)) :=
        mul_pos hLpos hgpos
      have hcast : ((s.m_stepNum.toNat : Nat) : ℚ) = (s.m_stepNum : ℚ) := by
        have : ((s.m_stepNum.toNat : Nat) : Int) = s.m_stepNum := Int.toNat_of_nonneg (by omega)
        exact_mod_cast this
      have hE' : energy (m_recalculateSpeed (advance s now)) ≤
          energy s * ((4 * ((s.m_stepNum.toNat : Nat) : ℚ) + 1)
            / (4 * ((s.m_stepNum.toNat : Nat) : ℚ) - 1)) ^ 2 := by
        rw [energy_of_speed_sq _ hsq, hacc, hcast]
        have := energy_antitone _ (m_recalculateSpeed (advance s now)).m_lastStepSize
          s.m_acceleration hLg (by rw [hlast]; exact le_max_right _ _) hA
        rw [energy_scaled _ _ _ hLpos hgpos hA, ← hEL, one_div_div] at this
        exact this
      have htn : 1 ≤ s.m_stepNum.toNat := by omega
      obtain ⟨hstep, hbnd⟩ := accel_energy_step (energy s) s.m_stepNum.toNat htn hb
      have hfls : energy s < (((m_getStepsToStop (advance s now) : Nat) : Int) : ℚ) + 1 := by
        rw [hfloor]
        exact Int.lt_floor_add_one _
      have hgt : ((m_getStepsToStop (advance s now) : Nat) : Int) + 1 ≤ forward (advance s now) := by
        omega
      have hgtq : (((m_getStepsToStop (advance s now) : Nat) : Int) : ℚ) + 1
          ≤ ((forward (advance s now) : Int) : ℚ) := by exact_mod_cast hgt
      have hL1 : 1 ≤ (m_recalculateSpeed (advance s now)).m_lastStepSize := by
        rw [hlast]
        exact le_trans h.minStep_ge (le_max_left _ _)
      refine ⟨⟨by rw [hacc]; exact hA, by rw [hmin]; exact h.minStep_ge, hL1, hsq, hint,
        by rw [hfw']; exact hf1,
        Or.inl ⟨by rw [hnum]; omega, ?_, ?_, fun _ => by rw [hmin, hlast]; exact le_max_left _ _⟩⟩,
        by rw [hfw', hfa], hdir.trans hdA, htgt⟩
      · rw [hnum]
        have : (s.m_stepNum + 1).toNat = s.m_stepNum.toNat + 1 := by omega
        rw [this]
        exact le_trans hE' hbnd
      · rw [hfw']
        linarith
  · -- decelerating
    have hk1 : (1 : Int) ≤ -s.m_stepNum := by omega
    have hkq : (1 : ℚ) ≤ ((-s.m_stepNum : Int) : ℚ) := by exact_mod_cast hk1
    have hfl : ⌊energy s⌋ = -s.m_stepNum := Int.floor_eq_iff.2 ⟨hlo, hhi⟩
    have hr : phaseDecision (advance s now) (getTargetDistance (advance s now))
        (m_getStepsToStop (advance s now)) = s.m_stepNum := by
      rw [hph, if_neg (fun hc => by omega), if_neg (fun hc => by omega)]
    obtain ⟨hdir, hlast, hnum, hint, hsq, hfw'⟩ :=
      recalc_ramp_shape (advance s now) _ hd hr (by omega)
    have hrec := recurrence_decel s.m_lastStepSize (-s.m_stepNum) hk1
    rw [neg_neg] at hrec
    rw [hLA, hmA, hrec] at hlast
    have hg : (1 : ℚ) ≤ (4 * ((-s.m_stepNum : Int) : ℚ) + 1) / (4 * ((-s.m_stepNum : Int) : ℚ) - 1) := by
      rw [le_div_iff₀ (by linarith)]
      linarith
    have hLL : s.m_lastStepSize ≤ s.m_lastStepSize
        * ((4 * ((-s.m_stepNum : Int) : ℚ) + 1) / (4 * ((-s.m_stepNum : Int) : ℚ) - 1)) :=
      le_mul_of_one_le_right (le_of_lt hLpos) hg
    rw [max_eq_right (le_trans hclamp hLL)] at hlast
    have hE' : energy (m_recalculateSpeed (advance s now)) =
        energy s * ((4 * ((-s.m_stepNum : Int) : ℚ) - 1) / (4 * ((-s.m_stepNum : Int) : ℚ) + 1)) ^ 2 := by
      rw [energy_of_speed_sq _ hsq, hlast, hacc, energy_scaled _ _ _ hLpos (by linarith) hA, hEL,
        one_div_div]
    obtain ⟨hlo', hhi'⟩ := decel_energy_step (energy s) _ hkq hlo hhi
    refine ⟨⟨by rw [hacc]; exact hA, by rw [hmin]; exact h.minStep_ge,
      by rw [hlast]; linarith [h.lastStep_ge], hsq, hint, by rw [hfw']; exact hf1,
      Or.inr ⟨by rw [hnum]; omega, by rw [hmin, hlast]; exact le_trans hclamp hLL, ?_, ?_, ?_⟩⟩,
      by rw [hfw', hfa], hdir.trans hdA, htgt⟩
    · rw [hE', hnum]
      push_cast
      push_cast at hlo'
      linarith
    · rw [hE', hnum]
      push_cast
      push_cast at hhi'
      linarith
    · rw [hfw', hnum]
      omega

/-- A target command on a stationary driver puts it on the ramp, `|N|` steps from the target
and directed toward it. -/
theorem moveTo_starts_ramp (s0 : State) (N : Int) (hN : N ≠ 0)
    (hrest : s0.m_stepNum = 0 ∧ s0.m_speed = 0)
    (hA : 0 < s0.m_acceleration) (hmin : 1 ≤ s0.m_minStepSize) (hinit : 1 ≤ s0.m_initialStepSize)
    (hc : 1000000 / s0.m_initialStepSize * (1000000 / s0.m_initialStepSize)
      / (2 * s0.m_acceleration) ≤ 5471 / 10000) :
    OnRamp (moveTo s0 (s0.m_currentPosition + N)) ∧
    forward (moveTo s0 (s0.m_currentPosition + N)) = |N| ∧
    (moveTo s0 (s0.m_currentPosition + N)).m_direction
      = (if 0 < N then CLOCKWISE else COUNTER_CLOCKWISE) ∧
    (moveTo s0 (s0.m_currentPosition + N)).m_targetPosition = s0.m_currentPosition + N ∧
    (moveTo s0 (s0.m_currentPosition + N)).m_currentPosition = s0.m_currentPosition := by
  unfold moveTo
  generalize ha : ({ s0 with m_targetPosition := s0.m_currentPosition + N } : State) = a
  have hdist : getTargetDistance a = N := by
    subst ha
    unfold getTargetDistance
    simp
  have hnumA : a.m_stepNum = 0 := by subst ha; exact hrest.1
  have hspA : a.m_speed = 0 := by subst ha; exact hrest.2
  have haccA : a.m_acceleration = s0.m_acceleration := by subst ha; rfl
  have hminA : a.m_minStepSize = s0.m_minStepSize := by subst ha; rfl
  have hinitA : a.m_initialStepSize = s0.m_initialStepSize := by subst ha; rfl
  have hposA : a.m_currentPosition = s0.m_currentPosition := by subst ha; rfl
  have htgtA : a.m_targetPosition = s0.m_currentPosition + N := by subst ha; rfl
  have hmov : ¬ (getTargetDistance a = 0 ∧ (m_getStepsToStop a : Int) ≤ 1) := by
    rw [hdist]
    exact fun h => hN h.1
  have hr : phaseDecision a (getTargetDistance a) (m_getStepsToStop a) = 0 := by
    unfold phaseDecision
    simp [hnumA]
  have hdir := recalc_direction_of_moving a hmov
  have hlast := recalc_lastStepSize_of_moving a hmov
  have hnum := recalc_stepNum_of_moving a hmov
  have hint := recalc_stepInterval_of_moving a hmov
  have hsq := recalc_speed_sq_of_moving a hmov
  rw [hr] at hnum
  rw [if_pos hr, hdist] at hdir
  rw [if_pos hr, hinitA] at hlast
  have hfw : forward (m_recalculateSpeed a) = |N| := by
    unfold forward getTargetDistance
    rw [hdir, recalc_targetPosition, recalc_currentPosition, htgtA, hposA]
    by_cases hpos : 0 < N
    · simp only [gt_iff_lt, hpos, if_true]
      rw [abs_of_pos hpos]
      omega
    · simp only [gt_iff_lt, hpos, if_false]
      rw [if_neg (by decide), abs_of_neg (by omega)]
      omega
  have habs : (1 : Int) ≤ |N| := Int.one_le_abs hN
  have hE : energy (m_recalculateSpeed a) = 1000000 / s0.m_initialStepSize
      * (1000000 / s0.m_initialStepSize) / (2 * s0.m_acceleration) := by
    rw [energy_of_speed_sq _ hsq, hlast, recalc_acceleration, haccA]
  refine ⟨⟨by rw [recalc_acceleration, haccA]; exact hA,
    by rw [recalc_minStepSize, hminA]; exact hmin, by rw [hlast]; exact hinit, hsq, hint,
    by rw [hfw]; exact habs,
    Or.inl ⟨by rw [hnum]; norm_num, ?_, ?_, fun h2 => by rw [hnum] at h2; norm_num at h2⟩⟩,
    hfw, by rw [hdir], ?_, ?_⟩
  · rw [hE, hnum]
    exact hc
  · rw [hE, hfw]
    have : (1 : ℚ) ≤ ((|N| : Int) : ℚ) := by exact_mod_cast habs
    linarith
  · rw [recalc_targetPosition, htgtA]
  · rw [recalc_currentPosition, hposA]

/-- While fewer than `|N|` steps have been made, the driver is on the ramp, `|N| - k` steps
from the target after `k` steps. -/
theorem ramp_trajectory (s0 : State) (N : Int) (clock : Nat → Nat) (hN : N ≠ 0)
    (hrest : s0.m_stepNum = 0 ∧ s0.m_speed = 0)
    (hA : 0 < s0.m_acceleration) (hmin : 1 ≤ s0.m_minStepSize) (hinit : 1 ≤ s0.m_initialStepSize)
    (hc : 1000000 / s0.m_initialStepSize * (1000000 / s0.m_initialStepSize)
      / (2 * s0.m_acceleration) ≤ 5471 / 10000)
    (hfire : ∀ k : Nat, k < N.natAbs →
      (m_makeStepIfRequired (trajectory (moveTo s0 (s0.m_currentPosition + N)) clock k)
        (clock k)).1 = true)
    (k : Nat) (hk : k < N.natAbs) :
    OnRamp (trajectory (moveTo s0 (s0.m_currentPosition + N)) clock k) ∧
    forward (trajectory (moveTo s0 (s0.m_currentPosition + N)) clock k) = |N| - k ∧
    (trajectory (moveTo s0 (s0.m_currentPosition + N)) clock k).m_direction
      = (if 0 < N then CLOCKWISE else COUNTER_CLOCKWISE) ∧
    (trajectory (moveTo s0 (s0.m_currentPosition + N)) clock k).m_targetPosition
      = s0.m_currentPosition + N := by
  induction k with
  | zero =>
    obtain ⟨h1, h2, h3, h4, _⟩ := moveTo_starts_ramp s0 N hN hrest hA hmin hinit hc
    exact ⟨h1, by simpa using h2, h3, h4⟩
  | succ j ih =>
    obtain ⟨h1, h2, h3, h4⟩ := ih (by omega)
    have habs : |N| = (N.natAbs : Int) := Int.abs_eq_natAbs N
    have hf2 : 2 ≤ forward (trajectory (moveTo s0 (s0.m_currentPosition + N)) clock j) := by
      rw [h2, habs]
      omega
    have hrun := run_of_fires _ _ (hfire j (by omega))
    obtain ⟨g1, g2, g3, g4⟩ := step_continues _ h1 (clock j) hf2
    simp only [trajectory]
    rw [hrun]
    refine ⟨g1, ?_, g3.trans h3, g4.trans h4⟩
    rw [g2, h2]
    push_cast
    ring

/-- After exactly `|N|` steps the driver is idle at the target. -/
theorem ramp_arrival (s0 : State) (N : Int) (clock : Nat → Nat) (hN : N ≠ 0)
    (hrest : s0.m_stepNum = 0 ∧ s0.m_speed = 0)
    (hA : 0 < s0.m_acceleration) (hmin : 1 ≤ s0.m_minStepSize) (hinit : 1 ≤ s0.m_initialStepSize)
    (hc : 1000000 / s0.m_initialStepSize * (1000000 / s0.m_initialStepSize)
      / (2 * s0.m_acceleration) ≤ 5471 / 10000)
    (hfire : ∀ k : Nat, k < N.natAbs →
      (m_makeStepIfRequired (trajectory (moveTo s0 (s0.m_currentPosition + N)) clock k)
        (clock k)).1 = true) :
    IdleAtTarget (trajectory (moveTo s0 (s0.m_currentPosition + N)) clock N.natAbs) ∧
    (trajectory (moveTo s0 (s0.m_currentPosition + N)) clock N.natAbs).m_targetPosition
      = s0.m_currentPosition + N := by
  have hpos : 0 < N.natAbs := Int.natAbs_pos.2 hN
  obtain ⟨j, hj⟩ : ∃ j, N.natAbs = j + 1 := ⟨N.natAbs - 1, by omega⟩
  obtain ⟨h1, h2, h3, h4⟩ :=
    ramp_trajectory s0 N clock hN hrest hA hmin hinit hc hfire j (by omega)
  have habs : |N| = (N.natAbs : Int) := Int.abs_eq_natAbs N
  have hf1 : forward (trajectory (moveTo s0 (s0.m_currentPosition + N)) clock j) = 1 := by
    rw [h2, habs, hj]
    push_cast
    ring
  have hrun := run_of_fires _ _ (hfire j (by omega))
  obtain ⟨g1, g2⟩ := step_arrives _ h1 (clock j) hf1
  rw [hj]
  simp only [trajectory]
  rw [hrun]
  exact ⟨g1, g2.trans h4⟩

theorem run_of_not_fires (s : State) (now : Nat) (h : (m_makeStepIfRequired s now).1 = false) :
    (run s now).2.1 = s := by
  have hs : (m_makeStepIfRequired s now).2 = (s, []) := by
    unfold m_makeStepIfRequired at h ⊢
    split_ifs at h ⊢ <;> simp_all
  unfold run
  simp only [h, hs]
  simp

/-- With `m_initialStepSize` as `setAcceleration` computes it, `0.676 * fsqrt (2 / a) * 1e6`,
the energy of the seeded first step is at most `5471 / 10000` as soon as `fsqrt (2 / a)` is
positive and its square is at least `(1 - 4 / 100000) * (2 / a)`. -/
theorem seed_energy_bound (a f : ℚ) (ha : 0 < a) (hf : 0 < f)
    (hacc : (1 - 4 / 100000) * (2 / a) ≤ f * f) :
    1000000 / (676 / 1000 * f * 1000000) * (1000000 / (676 / 1000 * f * 1000000)) / (2 * a)
      ≤ 5471 / 10000 := by
  have h1 : 1000000 / (676 / 1000 * f * 1000000) * (1000000 / (676 / 1000 * f * 1000000)) / (2 * a)
      = 1 / ((676 / 1000) ^ 2 * (f * f) * (2 * a)) := by
    field_simp
    ring
  rw [h1, div_le_iff₀ (by positivity)]
  have h2 : (1 - 4 / 100000) * (2 / a) * a = (1 - 4 / 100000) * 2 := by
    field_simp
    ring
  have h3 : (1 - 4 / 100000) * 2 ≤ f * f * a := by
    rw [← h2]
    exact mul_le_mul_of_nonneg_right hacc (le_of_lt ha)
  nlinarith

/-- The state `setAcceleration` leaves for a new positive acceleration `a` has
`m_acceleration = a` and `m_initialStepSize = 0.676 * fsqrt (2 / a) * 1e6`, and its seed
energy is at most `5471 / 10000` when `fsqrt (2 / a)` is positive with a square of at least
`(1 - 4 / 100000) * (2 / a)`. -/
theorem setAcceleration_seed_energy (fsqrt : ℚ → ℚ) (s : State) (a : ℚ) (ha : 0 < a)
    (hne : s.m_acceleration ≠ a) (hf : 0 < fsqrt (2 / a))
    (hacc : (1 - 4 / 100000) * (2 / a) ≤ fsqrt (2 / a) * fsqrt (2 / a)) :
    (setAcceleration fsqrt s a).m_acceleration = a ∧
    (setAcceleration fsqrt s a).m_initialStepSize = 676 / 1000 * fsqrt (2 / a) * 1000000 ∧
    1000000 / (setAcceleration fsqrt s a).m_initialStepSize
        * (1000000 / (setAcceleration fsqrt s a).m_initialStepSize)
        / (2 * (setAcceleration fsqrt s a).m_acceleration) ≤ 5471 / 10000 := by
  have h1 : (setAcceleration fsqrt s a).m_acceleration = a := by
    unfold setAcceleration
    rw [if_neg (ne_of_gt ha)]
    simp only [if_neg (not_lt.2 (le_of_lt ha)), if_pos hne]
    rw [recalc_acceleration]
  have h2 : (setAcceleration fsqrt s a).m_initialStepSize
      = 676 / 1000 * fsqrt (2 / a) * 1000000 := by
    unfold setAcceleration
    rw [if_neg (ne_of_gt ha)]
    simp only [if_neg (not_lt.2 (le_of_lt ha)), if_pos hne]
    rw [recalc_initialStepSize]
  refine ⟨h1, h2, ?_⟩
  rw [h1, h2]
  exact seed_energy_bound a (fsqrt (2 / a)) ha hf hacc

/-! ## Bounded stopping distance -/

/-- The concrete scenario of the specification (max speed 1000, acceleration 500, target
1000 steps from rest at position 0) converges: when each of the first 1000 polls makes its
step, the driver is idle after exactly 1000 steps, at position 1000 with `m_speed = 0`,
`m_stepInterval = 0` and `m_stepNum = 0`. -/
theorem concrete_scenario_converges (clock : Nat → Nat)
    (hfire : ∀ k : Nat, k < 1000 →
      (m_makeStepIfRequired (trajectory (moveTo (configured 1000 500) 1000) clock k)
        (clock k)).1 = true) :
    IdleAtTarget (trajectory (moveTo (configured 1000 500) 1000) clock 1000) ∧
    (trajectory (moveTo (configured 1000 500) 1000) clock 1000).m_currentPosition = 1000 := by
  have hp : (configured 1000 500).m_currentPosition = 0 := by decide!
  have h := ramp_arrival (configured 1000 500) 1000 clock (by decide) (by decide!) (by decide!)
    (by decide!) (by decide!) (by decide!)
    (by
      intro k hk
      rw [hp]
      exact hfire k hk)
  rw [hp] at h
  exact ⟨h.1, h.1.1.trans h.2⟩

/-! ## The operations as invocations of the recalculation engine -/

theorem recalc_maxSpeed (s : State) :
    (m_recalculateSpeed s).m_maxSpeed = s.m_maxSpeed := by
  unfold m_recalculateSpeed nextStepSize
  dsimp only
  split_ifs <;> rfl

theorem state_ext (s t : State)
    (h1 : s.reverseDirection = t.reverseDirection) (h2 : s.positioning = t.positioning)
    (h3 : s.m_direction = t.m_direction) (h4 : s.m_stepsPerDegree = t.m_stepsPerDegree)
    (h5 : s.m_stepsPerUnit = t.m_stepsPerUnit) (h6 : s.m_stepPin = t.m_stepPin)
    (h7 : s.m_dirPin = t.m_dirPin) (h8 : s.m_speed = t.m_speed)
    (h9 : s.m_maxSpeed = t.m_maxSpeed) (h10 : s.m_acceleration = t.m_acceleration)
    (h11 : s.m_stepInterval = t.m_stepInterval) (h12 : s.m_lastStepTime = t.m_lastStepTime)
    (h13 : s.m_stepNum = t.m_stepNum) (h14 : s.m_initialStepSize = t.m_initialStepSize)
    (h15 : s.m_lastStepSize = t.m_lastStepSize) (h16 : s.m_minStepSize = t.m_minStepSize)
    (h17 : s.m_currentPosition = t.m_currentPosition)
    (h18 : s.m_targetPosition = t.m_targetPosition) : s = t := by
  cases s
  cases t
  simp_all

theorem recalc_frame (s : State) :
    (m_recalculateSpeed s).reverseDirection = s.reverseDirection ∧
    (m_recalculateSpeed s).positioning = s.positioning ∧
    (m_recalculateSpeed s).m_stepsPerDegree = s.m_stepsPerDegree ∧
    (m_recalculateSpeed s).m_stepsPerUnit = s.m_stepsPerUnit ∧
    (m_recalculateSpeed s).m_stepPin = s.m_stepPin ∧
    (m_recalculateSpeed s).m_dirPin = s.m_dirPin := by
  unfold m_recalculateSpeed nextStepSize
  dsimp only
  split_ifs <;> exact ⟨rfl, rfl, rfl, rfl, rfl, rfl⟩

theorem setMaxSpeed_eq (s : State) (m : ℚ) :
    setMaxSpeed s m =
      if s.m_stepNum ≠ 0 then
        m_recalculateSpeed
          { s with
            m_maxSpeed := |m|
            m_minStepSize := 1000000 / |m|
            m_stepNum := truncQ ((s.m_speed * s.m_speed) / (2 * s.m_acceleration)) }
      else { s with m_maxSpeed := |m|, m_minStepSize := 1000000 / |m| } := by
  have habs : (if m < 0 then m * -1 else m) = |m| := by
    split_ifs with h
    · rw [abs_of_neg h]; ring
    · rw [abs_of_nonneg (not_lt.1 h)]
  unfold setMaxSpeed
  dsimp only
  rw [habs]

theorem setAcceleration_eq (fsqrt : ℚ → ℚ) (s : State) (a : ℚ) :
    setAcceleration fsqrt s a =
      if a ≠ 0 ∧ s.m_acceleration ≠ |a| then
        m_recalculateSpeed
          { s with
            m_stepNum := truncQ ((s.m_stepNum : ℚ) * (s.m_acceleration / |a|))
            m_acceleration := |a|
            m_initialStepSize := 676 / 1000 * fsqrt (2 / |a|) * 1000000 }
      else s := by
  have habs : (if a < 0 then a * -1 else a) = |a| := by
    split_ifs with h
    · rw [abs_of_neg h]; ring
    · rw [abs_of_nonneg (not_lt.1 h)]
  unfold setAcceleration
  dsimp only
  rw [habs]
  by_cases h0 : a = 0
  · rw [if_pos h0, if_neg (fun h => h.1 h0)]
  · rw [if_neg h0]
    by_cases h1 : s.m_acceleration ≠ |a|
    · rw [if_pos h1, if_pos ⟨h0, h1⟩]
    · rw [if_neg h1, if_neg (fun h => h1 h.2)]

theorem construct_invokes_recalc (fsqrt : ℚ → ℚ) (mem : Uninitialised) (n p q : Nat)
    (h : mem.m_acceleration ≠ 1) :
    construct fsqrt mem n p q =
      m_recalculateSpeed
        { constructDefaults mem n p q with
          m_stepNum := truncQ (((constructDefaults mem n p q).m_stepNum : ℚ)
            * (mem.m_acceleration / 1))
          m_acceleration := 1
          m_initialStepSize := 676 / 1000 * fsqrt (2 / 1) * 1000000 } := by
  unfold construct
  rw [setAcceleration_eq, if_pos ⟨one_ne_zero, by rw [abs_one]; exact h⟩]
  simp only [abs_one]
  rfl

/-- The operations invoke the recalculation engine in the states of `RecalcEntry`, and their
result is its result. -/
theorem operations_invoke_recalc (fsqrt : ℚ → ℚ) (s : State) :
    (∀ t : Nat, (m_makeStepIfRequired s t).1 = true →
      (run s t).2.1 = m_recalculateSpeed (m_makeStepIfRequired s t).2.1) ∧
    (∀ m : ℚ, s.m_stepNum ≠ 0 →
      setMaxSpeed s m =
        m_recalculateSpeed
          { s with
            m_maxSpeed := |m|
            m_minStepSize := 1000000 / |m|
            m_stepNum := truncQ ((s.m_speed * s.m_speed) / (2 * s.m_acceleration)) }) ∧
    (∀ a : ℚ, a ≠ 0 → s.m_acceleration ≠ |a| →
      setAcceleration fsqrt s a =
        m_recalculateSpeed
          { s with
            m_stepNum := truncQ ((s.m_stepNum : ℚ) * (s.m_acceleration / |a|))
            m_acceleration := |a|
            m_initialStepSize := 676 / 1000 * fsqrt (2 / |a|) * 1000000 }) ∧
    (∀ target : Int, moveTo s target = m_recalculateSpeed { s with m_targetPosition := target }) ∧
    stop s true =
      m_recalculateSpeed
        { s with
          m_targetPosition :=
            s.m_currentPosition
              + (m_getStepsToStop s : Int) * (if s.m_direction = CLOCKWISE then 1 else -1) } := by
  refine ⟨fun t hf => ?_, fun m hm => ?_, fun a ha hne => ?_, fun _ => rfl, rfl⟩
  · unfold run
    simp only [hf, if_true]
  · rw [setMaxSpeed_eq, if_pos hm]
  · rw [setAcceleration_eq, if_pos ⟨ha, hne⟩]

/-! ## The acceleration fields in the states of a driver -/

theorem accelerationInv_frame (fsqrt : ℚ → ℚ) (s r : State) (h : AccelerationInv fsqrt s)
    (h1 : r.m_acceleration = s.m_acceleration) (h2 : r.m_initialStepSize = s.m_initialStepSize) :
    AccelerationInv fsqrt r := by
  unfold AccelerationInv
  rw [h1, h2]
  exact h

theorem accelerationInv_recalc (fsqrt : ℚ → ℚ) (a : State) (h : AccelerationInv fsqrt a) :
    AccelerationInv fsqrt (m_recalculateSpeed a) :=
  accelerationInv_frame fsqrt a _ h (recalc_acceleration a) (recalc_initialStepSize a)

theorem accelerationInv_setAcceleration (fsqrt : ℚ → ℚ) (s : State) (a : ℚ)
    (h : AccelerationInv fsqrt s) : AccelerationInv fsqrt (setAcceleration fsqrt s a) := by
  rw [setAcceleration_eq]
  split_ifs with hc
  · exact accelerationInv_recalc fsqrt _ ⟨abs_pos.2 hc.1, Or.inl rfl⟩
  · exact h

theorem reachable_accelerationInv (fsqrt : ℚ → ℚ) (s : State) (h : Reachable fsqrt s) :
    AccelerationInv fsqrt s := by
  induction h with
  | constructed mem n p q =>
    unfold construct
    rw [setAcceleration_eq]
    split_ifs with hc
    · refine accelerationInv_recalc fsqrt _ ⟨by norm_num, Or.inl rfl⟩
    · have h1 : (constructDefaults mem n p q).m_acceleration = 1 := by
        by_contra hne
        exact hc ⟨one_ne_zero, by rw [abs_one]; exact hne⟩
      exact ⟨by rw [h1]; exact one_pos, Or.inr ⟨rfl, h1⟩⟩
  | assignReverseDirection s b _ ih => exact ih
  | assignPositioning s m _ ih => exact ih
  | setUnit s u _ ih => exact ih
  | run s t _ ih =>
    by_cases hf : (m_makeStepIfRequired s t).1 = true
    · rw [run_of_fires s t hf]
      exact accelerationInv_recalc fsqrt _ ih
    · have hf' : (m_makeStepIfRequired s t).1 = false := by
        cases hb : (m_makeStepIfRequired s t).1
        · rfl
        · exact absurd hb hf
      rw [run_of_not_fires s t hf']
      exact ih
  | setMaxSpeed s m _ ih =>
    rw [setMaxSpeed_eq]
    split_ifs
    · exact accelerationInv_recalc fsqrt _ ih
    · exact ih
  | setAcceleration s a _ ih => exact accelerationInv_setAcceleration fsqrt s a ih
  | setSpeed s v _ ih =>
    unfold setSpeed
    dsimp only
    split_ifs <;> exact ih
  | setPosition s p _ ih => exact ih
  | setPositionDegrees s d _ ih => exact ih
  | setPositionUnits s u _ ih => exact ih
  | moveTo s t _ ih => exact accelerationInv_recalc fsqrt _ ih
  | stop s b _ ih =>
    cases b
    · exact ih
    · exact accelerationInv_recalc fsqrt _ ih

theorem setAcceleration_acceleration (fsqrt : ℚ → ℚ) (s : State) (a : ℚ) (ha : a ≠ 0) :
    (setAcceleration fsqrt s a).m_acceleration = |a| := by
  rw [setAcceleration_eq]
  split_ifs with h
  · rw [recalc_acceleration]
  · by_contra hne
    exact h ⟨ha, hne⟩

/-- C13. Acceleration sanitisation: `setAcceleration 0` returns the state unchanged (every
member, the acceleration included); for every `a ≠ 0` the acceleration stored by
`setAcceleration a` is `|a|`; and in every state of a driver (reachable from the constructor,
run in any memory, through the operations) the acceleration is positive, so the divisor
`2 * m_acceleration` of `m_getStepsToStop` is not zero. -/
theorem acceleration_sanitised (fsqrt : ℚ → ℚ) :
    (∀ s : State, setAcceleration fsqrt s 0 = s) ∧
    (∀ (s : State) (a : ℚ), a ≠ 0 → (setAcceleration fsqrt s a).m_acceleration = |a|) ∧
    (∀ s : State, Reachable fsqrt s → 0 < s.m_acceleration ∧ 2 * s.m_acceleration ≠ 0) := by
  refine ⟨fun s => ?_, fun s a ha => setAcceleration_acceleration fsqrt s a ha, fun s h => ?_⟩
  · unfold setAcceleration
    rw [if_pos rfl]
  · have := (reachable_accelerationInv fsqrt s h).1
    exact ⟨this, by linarith⟩

theorem acceleration_sanitised_witness :
    ((-500 : ℚ) ≠ 0 ∧ Reachable sqrtQ (configured 1000 (-500))) ∧
    (configured 1000 (-500)).m_acceleration = |(-500 : ℚ)| ∧
    0 < (configured 1000 (-500)).m_acceleration :=
  ⟨⟨by norm_num, Reachable.setAcceleration _ (-500) (Reachable.setMaxSpeed _ 1000
      (Reachable.constructed zeroMemory 200 2 3))⟩,
    (acceleration_sanitised sqrtQ).2.1 _ (-500) (by norm_num),
    ((acceleration_sanitised sqrtQ).2.2 _ (Reachable.setAcceleration _ (-500)
      (Reachable.setMaxSpeed _ 1000 (Reachable.constructed zeroMemory 200 2 3)))).1⟩

/-! ## Reset operations -/

/-- C17. The reset operations leave the driver idle: `setPosition p` stores `p` as current and
target position, `stop false` stores the unchanged current position as target; both set
`m_stepNum`, `m_stepInterval` and `m_speed` to zero, so the target distance is zero and the
next `run`, at any clock reading, makes no step, writes no pin, changes nothing and returns
`false`. -/
theorem reset_operations_idle (s : State) (p : Int) (now : Nat) :
    ((setPosition s p).m_currentPosition = p ∧ (setPosition s p).m_targetPosition = p ∧
      (setPosition s p).m_stepNum = 0 ∧ (setPosition s p).m_stepInterval = 0 ∧
      (setPosition s p).m_speed = 0 ∧ getTargetDistance (setPosition s p) = 0 ∧
      run (setPosition s p) now = (false, setPosition s p, [])) ∧
    ((stop s false).m_targetPosition = s.m_currentPosition ∧
      (stop s false).m_currentPosition = s.m_currentPosition ∧
      (stop s false).m_stepNum = 0 ∧ (stop s false).m_stepInterval = 0 ∧
      (stop s false).m_speed = 0 ∧ getTargetDistance (stop s false) = 0 ∧
      run (stop s false) now = (false, stop s false, [])) := by
  have hrun : ∀ r : State, r.m_stepInterval = 0 → r.m_speed = 0 → getTargetDistance r = 0 →
      run r now = (false, r, []) := by
    intro r h1 h2 h3
    have hf : m_makeStepIfRequired r now = (false, r, []) := by
      unfold m_makeStepIfRequired
      rw [if_pos h1]
    unfold run
    simp only [hf]
    simp [h2, h3]
  have hd1 : getTargetDistance (setPosition s p) = 0 := by
    unfold getTargetDistance setPosition
    simp
  have hd2 : getTargetDistance (stop s false) = 0 := by
    unfold getTargetDistance stop
    simp
  refine ⟨⟨rfl, rfl, rfl, rfl, rfl, hd1, hrun _ rfl rfl hd1⟩,
    ⟨rfl, rfl, rfl, rfl, rfl, hd2, hrun _ rfl rfl hd2⟩⟩

/-! ## Velocity mode -/

theorem fabs_eq_abs (q : ℚ) : fabs q = |q| := by
  unfold fabs
  split_ifs with h
  · rw [abs_of_neg h]
  · rw [abs_of_nonneg (not_lt.1 h)]

theorem setSpeed_speed (s : State) (v : ℚ) :
    (setSpeed s v).m_speed = constrain v (-s.m_maxSpeed) s.m_maxSpeed := by
  unfold setSpeed
  dsimp only
  split_ifs <;> rfl

theorem setSpeed_shape (s : State) (v : ℚ) :
    ((setSpeed s v).m_speed = 0 →
      (setSpeed s v).m_stepInterval = 0 ∧ (setSpeed s v).m_direction = s.m_direction) ∧
    ((setSpeed s v).m_speed ≠ 0 →
      (setSpeed s v).m_stepInterval = toUInt32 |1000000 / (setSpeed s v).m_speed| ∧
      ((setSpeed s v).m_direction = CLOCKWISE ↔ 0 < (setSpeed s v).m_speed)) ∧
    ((setSpeed s v).m_stepNum = s.m_stepNum ∧
      (setSpeed s v).m_lastStepSize = s.m_lastStepSize ∧
      (setSpeed s v).m_currentPosition = s.m_currentPosition ∧
      (setSpeed s v).m_targetPosition = s.m_targetPosition ∧
      (setSpeed s v).m_maxSpeed = s.m_maxSpeed ∧
      (setSpeed s v).m_minStepSize = s.m_minStepSize ∧
      (setSpeed s v).m_acceleration = s.m_acceleration ∧
      (setSpeed s v).m_initialStepSize = s.m_initialStepSize) ∧
    setSpeed s v =
      { s with
        m_speed := (setSpeed s v).m_speed
        m_stepInterval := (setSpeed s v).m_stepInterval
        m_direction := (setSpeed s v).m_direction } := by
  have hsp := setSpeed_speed s v
  refine ⟨fun h0 => ?_, fun h0 => ?_, ?_, ?_⟩
  · rw [hsp] at h0
    unfold setSpeed
    dsimp only
    rw [if_pos h0]
    exact ⟨rfl, rfl⟩
  · rw [hsp] at h0 ⊢
    unfold setSpeed
    dsimp only
    rw [if_neg h0, fabs_eq_abs]
    refine ⟨rfl, ?_⟩
    show (if constrain v (-s.m_maxSpeed) s.m_maxSpeed > 0 then CLOCKWISE else COUNTER_CLOCKWISE)
      = CLOCKWISE ↔ _
    split_ifs with h
    · exact ⟨fun _ => h, fun _ => rfl⟩
    · exact ⟨fun hc => (by cases hc), fun hc => absurd hc h⟩
  · unfold setSpeed
    dsimp only
    split_ifs <;> exact ⟨rfl, rfl, rfl, rfl, rfl, rfl, rfl, rfl⟩
  · unfold setSpeed
    dsimp only
    split_ifs <;> rfl

theorem recalc_stepSize_post (a : State) :
    (m_recalculateSpeed a).m_stepNum ≠ 0 →
      (m_recalculateSpeed a).m_lastStepSize = a.m_initialStepSize ∨
        a.m_minStepSize ≤ (m_recalculateSpeed a).m_lastStepSize := by
  intro hnum
  by_cases harr : getTargetDistance a = 0 ∧ (m_getStepsToStop a : Int) ≤ 1
  · rw [recalc_of_arrived a harr] at hnum
    exact absurd rfl hnum
  · rw [recalc_lastStepSize_of_moving a harr]
    split_ifs
    · exact Or.inl rfl
    · exact Or.inr (le_max_left _ _)

theorem stepSizeInv_recalc (a : State) (h0 : 0 ≤ a.m_maxSpeed)
    (hk : (a.m_minStepSize = 1 ∧ a.m_maxSpeed = 200) ∨ a.m_minStepSize = 1000000 / a.m_maxSpeed) :
    StepSizeInv (m_recalculateSpeed a) := by
  refine ⟨by rw [recalc_maxSpeed]; exact h0, by rw [recalc_maxSpeed, recalc_minStepSize]; exact hk,
    fun hnum => ?_⟩
  rw [recalc_initialStepSize, recalc_minStepSize]
  exact recalc_stepSize_post a hnum

theorem stepSizeInv_run (s : State) (t : Nat) (h : StepSizeInv s) : StepSizeInv (run s t).2.1 := by
  by_cases hf : (m_makeStepIfRequired s t).1 = true
  · rw [run_of_fires s t hf]
    exact stepSizeInv_recalc _ h.1 h.2.1
  · have hf' : (m_makeStepIfRequired s t).1 = false := by
      cases hb : (m_makeStepIfRequired s t).1
      · rfl
      · exact absurd hb hf
    rw [run_of_not_fires s t hf']
    exact h

theorem stepSizeInv_setMaxSpeed (s : State) (m : ℚ) : StepSizeInv (setMaxSpeed s m) := by
  rw [setMaxSpeed_eq]
  split_ifs with h
  · exact stepSizeInv_recalc _ (abs_nonneg m) (Or.inr rfl)
  · exact ⟨abs_nonneg m, Or.inr rfl, fun hn => absurd hn h⟩

theorem stepSizeInv_setAcceleration (fsqrt : ℚ → ℚ) (s : State) (a : ℚ) (h : StepSizeInv s) :
    StepSizeInv (setAcceleration fsqrt s a) := by
  rw [setAcceleration_eq]
  split_ifs
  · exact stepSizeInv_recalc _ h.1 h.2.1
  · exact h

theorem stepSizeInv_reset (s : State) (p q : Int) (h : StepSizeInv s) :
    StepSizeInv
      { s with m_currentPosition := p, m_targetPosition := q, m_stepNum := 0, m_stepInterval := 0,
               m_speed := 0 } :=
  ⟨h.1, h.2.1, fun hn => absurd rfl hn⟩

theorem reachable_stepSizeInv (fsqrt : ℚ → ℚ) (s : State) (h : Reachable fsqrt s) :
    StepSizeInv s := by
  induction h with
  | constructed mem n p q =>
    unfold construct
    apply stepSizeInv_setAcceleration
    exact ⟨by norm_num [constructDefaults], Or.inl ⟨rfl, rfl⟩, fun hn => absurd rfl hn⟩
  | assignReverseDirection s b _ ih => exact ih
  | assignPositioning s m _ ih => exact ih
  | setUnit s u _ ih => exact ih
  | run s t _ ih => exact stepSizeInv_run s t ih
  | setMaxSpeed s m _ ih => exact stepSizeInv_setMaxSpeed s m
  | setAcceleration s a _ ih => exact stepSizeInv_setAcceleration fsqrt s a ih
  | setSpeed s v _ ih =>
    unfold setSpeed
    dsimp only
    split_ifs <;> exact ih
  | setPosition s p _ ih => exact stepSizeInv_reset s p p ih
  | setPositionDegrees s d _ ih => exact stepSizeInv_reset s _ _ ih
  | setPositionUnits s u _ ih => exact stepSizeInv_reset s _ _ ih
  | moveTo s t _ ih => exact stepSizeInv_recalc _ ih.1 ih.2.1
  | stop s b _ ih =>
    cases b
    · exact stepSizeInv_reset s s.m_currentPosition s.m_currentPosition ih
    · exact stepSizeInv_recalc _ ih.1 ih.2.1

/-- In every state of a driver `m_maxSpeed` is not negative. -/
theorem reachable_maxSpeed_nonneg (fsqrt : ℚ → ℚ) (s : State) (h : Reachable fsqrt s) :
    0 ≤ s.m_maxSpeed :=
  (reachable_stepSizeInv fsqrt s h).1

theorem minStepSize_pos_of_inv (s : State) (h : StepSizeInv s) (hM : 0 < s.m_maxSpeed) :
    0 < s.m_minStepSize := by
  rcases h.2.1 with ⟨h1, _⟩ | h1
  · rw [h1]; exact one_pos
  · rw [h1]; exact div_pos (by norm_num) hM

/-! ## The max-speed limit fields -/

/-- What `setMaxSpeed` stores: the magnitude of its argument and the quotient
`1e6 / m_maxSpeed`; both are positive when the argument is not zero. -/
theorem setMaxSpeed_limits (s : State) (m : ℚ) :
    (setMaxSpeed s m).m_maxSpeed = |m| ∧
    (setMaxSpeed s m).m_minStepSize = 1000000 / (setMaxSpeed s m).m_maxSpeed ∧
    (m ≠ 0 → 0 < (setMaxSpeed s m).m_maxSpeed ∧ 0 < (setMaxSpeed s m).m_minStepSize) := by
  have h1 : (setMaxSpeed s m).m_maxSpeed = |m| := by
    rw [setMaxSpeed_eq]
    split_ifs
    · rw [recalc_maxSpeed]
    · rfl
  have h2 : (setMaxSpeed s m).m_minStepSize = 1000000 / |m| := by
    rw [setMaxSpeed_eq]
    split_ifs
    · rw [recalc_minStepSize]
    · rfl
  refine ⟨h1, by rw [h2, h1], fun hm => ?_⟩
  rw [h1, h2]
  exact ⟨abs_pos.2 hm, div_pos (by norm_num) (abs_pos.2 hm)⟩

theorem construct_limits (fsqrt : ℚ → ℚ) (mem : Uninitialised) (n p q : Nat) :
    (construct fsqrt mem n p q).m_maxSpeed = 200 ∧
    (construct fsqrt mem n p q).m_minStepSize = 1 := by
  unfold construct
  rw [setAcceleration_eq]
  split_ifs
  · rw [recalc_maxSpeed, recalc_minStepSize]
    exact ⟨rfl, rfl⟩
  · exact ⟨rfl, rfl⟩

/-- C14 fails on the code. The freshly constructed driver (any memory, any arguments; a state
of the driver before any `setMaxSpeed` call) has `m_maxSpeed = 200` and `m_minStepSize = 1`,
which is not `1e6 / m_maxSpeed = 5000`; and `setMaxSpeed 0` stores `m_maxSpeed = 0`, which is
not positive (its `m_minStepSize` is the quotient `1e6 / 0`). -/
theorem constructed_minStepSize_not_derived (fsqrt : ℚ → ℚ) (mem : Uninitialised)
    (n p q : Nat) :
    Reachable fsqrt (construct fsqrt mem n p q) ∧
    (construct fsqrt mem n p q).m_maxSpeed = 200 ∧
    (construct fsqrt mem n p q).m_minStepSize = 1 ∧
    (construct fsqrt mem n p q).m_minStepSize
      ≠ 1000000 / (construct fsqrt mem n p q).m_maxSpeed ∧
    Reachable fsqrt (setMaxSpeed (construct fsqrt mem n p q) 0) ∧
    (setMaxSpeed (construct fsqrt mem n p q) 0).m_maxSpeed = 0 ∧
    ¬ 0 < (setMaxSpeed (construct fsqrt mem n p q) 0).m_maxSpeed := by
  obtain ⟨h1, h2⟩ := construct_limits fsqrt mem n p q
  have h3 := (setMaxSpeed_limits (construct fsqrt mem n p q) 0).1
  rw [abs_zero] at h3
  refine ⟨Reachable.constructed mem n p q, h1, h2, ?_,
    Reachable.setMaxSpeed _ 0 (Reachable.constructed mem n p q), h3, ?_⟩
  · rw [h1, h2]
    norm_num
  · rw [h3]
    exact lt_irrefl 0

/-! ## The postcondition of `setAcceleration` -/

/-- The postcondition of `setAcceleration a` for `a ≠ 0`: when `|a|` differs from the stored
acceleration, the result is the recalculation engine applied to the state with the ramp index
scaled by `A_old / |a|` (truncated toward zero), `m_acceleration = |a|` and
`m_initialStepSize = 0.676 * fsqrt (2 / |a|) * 1e6`, and the result keeps these two values;
when `|a|` equals the stored acceleration the state is unchanged. -/
theorem setAcceleration_postcondition (fsqrt : ℚ → ℚ) (s : State) (a : ℚ) (ha : a ≠ 0) :
    (s.m_acceleration ≠ |a| →
      setAcceleration fsqrt s a =
        m_recalculateSpeed
          { s with
            m_stepNum := truncQ ((s.m_stepNum : ℚ) * (s.m_acceleration / |a|))
            m_acceleration := |a|
            m_initialStepSize := 676 / 1000 * fsqrt (2 / |a|) * 1000000 } ∧
      (setAcceleration fsqrt s a).m_acceleration = |a| ∧
      (setAcceleration fsqrt s a).m_initialStepSize = 676 / 1000 * fsqrt (2 / |a|) * 1000000) ∧
    (s.m_acceleration = |a| → setAcceleration fsqrt s a = s) := by
  constructor
  · intro hne
    have h := setAcceleration_eq fsqrt s a
    rw [if_pos ⟨ha, hne⟩] at h
    refine ⟨h, ?_, ?_⟩
    · rw [h, recalc_acceleration]
    · rw [h, recalc_initialStepSize]
  · intro heq
    have h := setAcceleration_eq fsqrt s a
    rw [if_neg (fun hc => hc.2 heq)] at h
    exact h

/-- The witness of the specification: with acceleration 500 the initial step size is about
42754 microseconds, for every `fsqrt` whose value at `2 / 500` is the square root to seven
digits, and for the stand-in `sqrtQ`. -/
theorem setAcceleration_500 (fsqrt : ℚ → ℚ) (s : State) (hs : s.m_acceleration ≠ 500)
    (h1 : 632455 / 10000000 ≤ fsqrt (2 / 500)) (h2 : fsqrt (2 / 500) ≤ 632456 / 10000000) :
    |(setAcceleration fsqrt s 500).m_initialStepSize - 42754| < 1 / 10 := by
  have habs : |(500 : ℚ)| = 500 := abs_of_pos (by norm_num)
  have h := ((setAcceleration_postcondition fsqrt s 500 (by norm_num)).1
    (by rw [habs]; exact hs)).2.2
  rw [h, habs, abs_lt]
  constructor <;> linarith

theorem setAcceleration_500_sqrtQ :
    (configured 1000 500).m_acceleration = 500 ∧
    |(configured 1000 500).m_initialStepSize - 42754| < 1 / 10 := by
  decide!

/-- C15 fails on the code. When the uninitialised `m_acceleration` holds `1.0`, the call
`setAcceleration(1.0f)` of the constructor finds the acceleration unchanged and returns: the
constructed driver has `m_acceleration = 1` and keeps `m_initialStepSize = 0`, which is not
`0.676 * sqrt (2 / 1) * 1e6`; a target command then schedules no step
(`m_stepInterval = 0`) although the target is five steps away. -/
theorem constructor_skips_initialStepSize :
    (∀ (fsqrt : ℚ → ℚ) (n p q : Nat),
      Reachable fsqrt (construct fsqrt staleMemory n p q) ∧
      construct fsqrt staleMemory n p q = constructDefaults staleMemory n p q ∧
      (construct fsqrt staleMemory n p q).m_acceleration = 1 ∧
      (construct fsqrt staleMemory n p q).m_initialStepSize = 0) ∧
    (construct sqrtQ staleMemory 200 2 3).m_initialStepSize
      ≠ 676 / 1000 * sqrtQ (2 / (construct sqrtQ staleMemory 200 2 3).m_acceleration) * 1000000 ∧
    (moveTo (construct sqrtQ staleMemory 200 2 3) 5).m_stepInterval = 0 ∧
    getTargetDistance (moveTo (construct sqrtQ staleMemory 200 2 3) 5) = 5 := by
  refine ⟨fun fsqrt n p q => ?_, by decide!, by decide!, by decide!⟩
  have h : construct fsqrt staleMemory n p q = constructDefaults staleMemory n p q := by
    unfold construct
    rw [setAcceleration_eq, if_neg]
    rintro ⟨_, h2⟩
    exact h2 (by rw [abs_one]; rfl)
  refine ⟨Reachable.constructed staleMemory n p q, h, ?_, ?_⟩
  · rw [h]; rfl
  · rw [h]; rfl

/-! ## Monotone step sizes on a ramp -/

theorem recurrence_shrinks (l : ℚ) (r : Int) (hl : 0 < l) (hr : 1 ≤ r) :
    l - (2 * l) / (4 * (r : ℚ) + 1) < l := by
  have h1 : (1 : ℚ) ≤ r := by exact_mod_cast hr
  have : 0 < (2 * l) / (4 * (r : ℚ) + 1) := div_pos (by linarith) (by linarith)
  linarith

theorem recurrence_grows (l : ℚ) (r : Int) (hl : 0 < l) (hr : r ≤ -1) :
    l < l - (2 * l) / (4 * (r : ℚ) + 1) := by
  have h1 : (r : ℚ) ≤ -1 := by exact_mod_cast hr
  have : (2 * l) / (4 * (r : ℚ) + 1) < 0 := div_neg_of_pos_of_neg (by linarith) (by linarith)
  linarith

/-- C18. One application of the recurrence branch of the recalculation engine, on a state
with `0 < m_minStepSize ≤ m_lastStepSize = L` in which the engine does not stop, with `r` the
ramp index used (the index after the phase decision). For `r ≥ 1` the new step size `L'`
satisfies `m_minStepSize ≤ L' ≤ L`, and `L' < L` unless `L'` was clamped to `m_minStepSize`
(when the value of the recurrence is not below `m_minStepSize`, `L'` is that value and
`L' < L`); for `r ≤ -1`, `L' > L`. The scheduled interval, the truncation of the step size,
follows: it does not grow for `r ≥ 1` and does not shrink for `r ≤ -1`. -/
theorem ramp_step_monotone (s : State) (hmin : 0 < s.m_minStepSize)
    (hL : s.m_minStepSize ≤ s.m_lastStepSize)
    (hmov : ¬ (getTargetDistance s = 0 ∧ (m_getStepsToStop s : Int) ≤ 1)) :
    (1 ≤ phaseDecision s (getTargetDistance s) (m_getStepsToStop s) →
      s.m_minStepSize ≤ (m_recalculateSpeed s).m_lastStepSize ∧
      (m_recalculateSpeed s).m_lastStepSize ≤ s.m_lastStepSize ∧
      ((m_recalculateSpeed s).m_lastStepSize < s.m_lastStepSize ∨
        (m_recalculateSpeed s).m_lastStepSize = s.m_minStepSize) ∧
      (s.m_minStepSize ≤ s.m_lastStepSize - (2 * s.m_lastStepSize)
          / (4 * (phaseDecision s (getTargetDistance s) (m_getStepsToStop s) : ℚ) + 1) →
        (m_recalculateSpeed s).m_lastStepSize = s.m_lastStepSize - (2 * s.m_lastStepSize)
          / (4 * (phaseDecision s (getTargetDistance s) (m_getStepsToStop s) : ℚ) + 1) ∧
        (m_recalculateSpeed s).m_lastStepSize < s.m_lastStepSize) ∧
      (m_recalculateSpeed s).m_stepInterval ≤ toUInt32 s.m_lastStepSize) ∧
    (phaseDecision s (getTargetDistance s) (m_getStepsToStop s) ≤ -1 →
      s.m_lastStepSize < (m_recalculateSpeed s).m_lastStepSize ∧
      (m_recalculateSpeed s).m_lastStepSize = s.m_lastStepSize - (2 * s.m_lastStepSize)
          / (4 * (phaseDecision s (getTargetDistance s) (m_getStepsToStop s) : ℚ) + 1) ∧
      toUInt32 s.m_lastStepSize ≤ (m_recalculateSpeed s).m_stepInterval) := by
  have hl : 0 < s.m_lastStepSize := lt_of_lt_of_le hmin hL
  have hlast := recalc_lastStepSize_of_moving s hmov
  have hint := recalc_stepInterval_of_moving s hmov
  generalize phaseDecision s (getTargetDistance s) (m_getStepsToStop s) = r at hlast ⊢
  constructor
  · intro hr
    rw [if_neg (by omega)] at hlast
    have hsh := recurrence_shrinks s.m_lastStepSize r hl hr
    have hle : (m_recalculateSpeed s).m_lastStepSize ≤ s.m_lastStepSize := by
      rw [hlast]
      exact max_le hL (le_of_lt hsh)
    refine ⟨by rw [hlast]; exact le_max_left _ _, hle, ?_, fun hraw => ?_, ?_⟩
    · rcases le_total s.m_minStepSize
          (s.m_lastStepSize - (2 * s.m_lastStepSize) / (4 * (r : ℚ) + 1)) with h | h
      · left
        rw [hlast, max_eq_right h]
        exact hsh
      · right
        rw [hlast, max_eq_left h]
    · rw [hlast, max_eq_right hraw]
      exact ⟨rfl, hsh⟩
    · rw [hint]
      exact toUInt32_mono _ _ hle
  · intro hr
    rw [if_neg (by omega)] at hlast
    have hgr := recurrence_grows s.m_lastStepSize r hl hr
    have hraw : s.m_minStepSize ≤ s.m_lastStepSize - (2 * s.m_lastStepSize) / (4 * (r : ℚ) + 1) :=
      le_trans hL (le_of_lt hgr)
    rw [max_eq_right hraw] at hlast
    refine ⟨by rw [hlast]; exact hgr, hlast, ?_⟩
    rw [hint]
    exact toUInt32_mono _ _ (by rw [hlast]; exact le_of_lt hgr)

theorem ramp_step_monotone_witness :
    (0 < decelerationEntry.m_minStepSize ∧
      decelerationEntry.m_minStepSize ≤ decelerationEntry.m_lastStepSize ∧
      ¬ (getTargetDistance decelerationEntry = 0 ∧ (m_getStepsToStop decelerationEntry : Int) ≤ 1) ∧
      phaseDecision decelerationEntry (getTargetDistance decelerationEntry)
        (m_getStepsToStop decelerationEntry) ≤ -1) ∧
    decelerationEntry.m_lastStepSize < (m_recalculateSpeed decelerationEntry).m_lastStepSize :=
  ⟨by decide!,
    ((ramp_step_monotone decelerationEntry (by decide!) (by decide!) (by decide!)).2
      (by decide!)).1⟩

/-! ## No division by zero in the recalculation engine -/

theorem recalcEntry_limits (fsqrt : ℚ → ℚ) (a : State) (h : RecalcEntry fsqrt a) :
    (a.m_minStepSize = 1 ∧ a.m_maxSpeed = 200) ∨ a.m_minStepSize = 1000000 / a.m_maxSpeed := by
  cases h with
  | construct mem n p q _ => exact Or.inl ⟨rfl, rfl⟩
  | run s t hs hf =>
    have hcond := (makeStep_fires_iff s t).1 hf
    have hk := (reachable_stepSizeInv fsqrt s hs).2.1
    unfold m_makeStepIfRequired
    rw [if_neg hcond.1, if_pos hcond.2]
    dsimp only
    split_ifs <;> exact hk
  | setMaxSpeed s m hs _ => exact Or.inr rfl
  | setAcceleration s a hs _ _ => exact (reachable_stepSizeInv fsqrt s hs).2.1
  | moveTo s t hs => exact (reachable_stepSizeInv fsqrt s hs).2.1
  | stop s hs => exact (reachable_stepSizeInv fsqrt s hs).2.1

theorem recurrence_denominator_ne_zero (r : Int) : 4 * (r : ℚ) + 1 ≠ 0 := by
  have : (4 * r + 1 : Int) ≠ 0 := by omega
  exact_mod_cast this

theorem recurrence_factor_pos (r : Int) (hr : r ≠ 0) : 0 < 1 - 2 / (4 * (r : ℚ) + 1) := by
  have h := recurrence_pos 1 r one_pos hr
  rw [mul_one] at h
  exact h

theorem recalc_lastStepSize_pos (a : State) (hi : 0 < a.m_initialStepSize)
    (hm : 0 < a.m_minStepSize)
    (hmov : ¬ (getTargetDistance a = 0 ∧ (m_getStepsToStop a : Int) ≤ 1)) :
    0 < (m_recalculateSpeed a).m_lastStepSize := by
  rw [recalc_lastStepSize_of_moving a hmov]
  split_ifs
  · exact hi
  · exact lt_of_lt_of_le hm (le_max_left _ _)

theorem recalc_speed_sign (a : State)
    (hmov : ¬ (getTargetDistance a = 0 ∧ (m_getStepsToStop a : Int) ≤ 1))
    (hl : 0 < (m_recalculateSpeed a).m_lastStepSize) :
    |(m_recalculateSpeed a).m_speed| = 1000000 / (m_recalculateSpeed a).m_lastStepSize ∧
    (m_recalculateSpeed a).m_speed ≠ 0 ∧
    (0 < (m_recalculateSpeed a).m_speed ↔ (m_recalculateSpeed a).m_direction = CLOCKWISE) := by
  have hq : (0 : ℚ) < 1000000 / (m_recalculateSpeed a).m_lastStepSize := div_pos (by norm_num) hl
  have hsp := recalc_speed_of_moving a hmov
  by_cases hd : (m_recalculateSpeed a).m_direction = COUNTER_CLOCKWISE
  · rw [if_pos hd] at hsp
    rw [hsp, hd]
    refine ⟨?_, by linarith, ⟨fun h => absurd h (by linarith), fun h => by cases h⟩⟩
    rw [mul_neg, mul_one, abs_neg, abs_of_pos hq]
  · rw [if_neg hd] at hsp
    have hcw : (m_recalculateSpeed a).m_direction = CLOCKWISE := by
      cases hdir : (m_recalculateSpeed a).m_direction
      · rfl
      · exact absurd hdir hd
    rw [hsp, hcw]
    exact ⟨abs_of_pos hq, ne_of_gt hq, ⟨fun _ => rfl, fun _ => hq⟩⟩

/-- C20. The recalculation engine never divides by zero. The denominator `4 * r + 1` of the
recurrence is non-zero for every integer `r`, and the factor `1 - 2 / (4 * r + 1)` is positive
for every non-zero integer `r`. In every state of a driver with `m_initialStepSize > 0` and
`m_maxSpeed > 0`, `m_lastStepSize > 0` whenever the ramp index is not zero. Whenever an
operation invokes the engine (in a state of `RecalcEntry`, with `m_initialStepSize > 0` and
`m_maxSpeed > 0`) and the engine does not stop, the new `m_lastStepSize` is positive, so
`m_speed` has the magnitude `1e6 / m_lastStepSize`, is not zero, and is positive exactly
when the direction is clockwise. -/
theorem recalculation_never_divides_by_zero (fsqrt : ℚ → ℚ) :
    (∀ r : Int, 4 * (r : ℚ) + 1 ≠ 0) ∧
    (∀ r : Int, r ≠ 0 → 0 < 1 - 2 / (4 * (r : ℚ) + 1)) ∧
    (∀ s : State, Reachable fsqrt s → 0 < s.m_initialStepSize → 0 < s.m_maxSpeed →
      s.m_stepNum ≠ 0 → 0 < s.m_lastStepSize) ∧
    (∀ a : State, RecalcEntry fsqrt a → 0 < a.m_initialStepSize → 0 < a.m_maxSpeed →
      ¬ (getTargetDistance a = 0 ∧ (m_getStepsToStop a : Int) ≤ 1) →
      0 < (m_recalculateSpeed a).m_lastStepSize ∧
      |(m_recalculateSpeed a).m_speed| = 1000000 / (m_recalculateSpeed a).m_lastStepSize ∧
      (m_recalculateSpeed a).m_speed ≠ 0 ∧
      (0 < (m_recalculateSpeed a).m_speed ↔ (m_recalculateSpeed a).m_direction = CLOCKWISE)) := by
  refine ⟨recurrence_denominator_ne_zero, recurrence_factor_pos, fun s hs hi hM hn => ?_,
    fun a ha hi hM hmov => ?_⟩
  · have hinv := reachable_stepSizeInv fsqrt s hs
    have hmin := minStepSize_pos_of_inv s hinv hM
    rcases hinv.2.2 hn with h | h
    · rw [h]; exact hi
    · exact lt_of_lt_of_le hmin h
  · have hmin : 0 < a.m_minStepSize := by
      rcases recalcEntry_limits fsqrt a ha with ⟨h1, _⟩ | h1
      · rw [h1]; exact one_pos
      · rw [h1]; exact div_pos (by norm_num) hM
    have hl := recalc_lastStepSize_pos a hi hmin hmov
    exact ⟨hl, recalc_speed_sign a hmov hl⟩

theorem recalculation_never_divides_by_zero_witness :
    (Reachable sqrtQ (moveTo (configured 1000 200) 10) ∧
      0 < (moveTo (configured 1000 200) 10).m_initialStepSize ∧
      0 < (moveTo (configured 1000 200) 10).m_maxSpeed ∧
      (moveTo (configured 1000 200) 10).m_stepNum ≠ 0) ∧
    0 < (moveTo (configured 1000 200) 10).m_lastStepSize :=
  ⟨⟨Reachable.moveTo _ 10 (Reachable.setAcceleration _ 200 (Reachable.setMaxSpeed _ 1000
      (Reachable.constructed zeroMemory 200 2 3))), by decide!, by decide!, by decide!⟩,
    (recalculation_never_divides_by_zero sqrtQ).2.2.1 _
      (Reachable.moveTo _ 10 (Reachable.setAcceleration _ 200 (Reachable.setMaxSpeed _ 1000
        (Reachable.constructed zeroMemory 200 2 3))))
      (by decide!) (by decide!) (by decide!)⟩

/-! ## Velocity mode and the first step -/

theorem pollAll_quiet (s : State) (times : List Nat)
    (h : ∀ t ∈ times, (m_makeStepIfRequired s t).1 = false) : (pollAll s times).1 = s := by
  induction times with
  | nil => rfl
  | cons t ts ih =>
    simp only [pollAll]
    rw [run_of_not_fires s t (h t (List.mem_cons_self t ts))]
    exact ih (fun u hu => h u (List.mem_cons_of_mem t hu))

theorem constrain_sign (v m : ℚ) (hm : 0 ≤ m) (h0 : constrain v (-m) m ≠ 0) :
    (0 < v → 0 < constrain v (-m) m) ∧ (¬ 0 < v → constrain v (-m) m < 0) := by
  unfold constrain at h0 ⊢
  constructor
  · intro hv
    rw [if_neg (by linarith)] at h0 ⊢
    split_ifs with h2
    · rw [if_pos h2] at h0
      exact lt_of_le_of_ne hm (Ne.symm h0)
    · exact hv
  · intro hv
    split_ifs with h1 h2
    · rw [if_pos h1] at h0
      have : -m ≤ 0 := by linarith
      exact lt_of_le_of_ne this h0
    · linarith
    · rw [if_neg h1, if_neg h2] at h0
      exact lt_of_le_of_ne (not_lt.1 hv) h0

theorem phaseDecision_of_zero (a : State) (d st : Int) (h : a.m_stepNum = 0) :
    phaseDecision a d st = 0 := by
  unfold phaseDecision
  simp [h]

/-- C19. Velocity mode is overwritten by the first step. For every idle state (ramp index 0,
target position equal to current position) whose `m_maxSpeed` is not negative and every
`v ≠ 0`: after `setSpeed v`, polls that make no step change nothing, and the first poll that
makes a step moves the position by one step in the direction of `v` and starts a fresh ramp
back toward the unchanged target: the direction is opposite to the sign of `v`,
`m_lastStepSize = m_initialStepSize`, `m_stepInterval` is the truncation of
`m_initialStepSize`, `m_speed` is `1e6 / m_initialStepSize` with the sign opposite to `v`, and
the ramp index is 1, whatever the value of `v`. -/
theorem velocity_mode_overwritten (s : State) (v : ℚ) (times : List Nat) (now : Nat)
    (hidle : s.m_stepNum = 0 ∧ s.m_targetPosition = s.m_currentPosition) (hv : v ≠ 0)
    (hM : 0 ≤ s.m_maxSpeed)
    (hquiet : ∀ t ∈ times, (m_makeStepIfRequired (setSpeed s v) t).1 = false)
    (hfire : (m_makeStepIfRequired (setSpeed s v) now).1 = true) :
    (pollAll (setSpeed s v) times).1 = setSpeed s v ∧
    (run (pollAll (setSpeed s v) times).1 now).2.1.m_currentPosition
      = s.m_currentPosition + (if 0 < v then 1 else -1) ∧
    (run (pollAll (setSpeed s v) times).1 now).2.1.m_targetPosition = s.m_targetPosition ∧
    (run (pollAll (setSpeed s v) times).1 now).2.1.m_direction
      = (if 0 < v then COUNTER_CLOCKWISE else CLOCKWISE) ∧
    (run (pollAll (setSpeed s v) times).1 now).2.1.m_lastStepSize = s.m_initialStepSize ∧
    (run (pollAll (setSpeed s v) times).1 now).2.1.m_stepInterval
      = toUInt32 s.m_initialStepSize ∧
    (run (pollAll (setSpeed s v) times).1 now).2.1.m_speed
      = (if 0 < v then -(1000000 / s.m_initialStepSize) else 1000000 / s.m_initialStepSize) ∧
    (run (pollAll (setSpeed s v) times).1 now).2.1.m_stepNum = 1 ∧
    (0 < s.m_initialStepSize →
      |(run (pollAll (setSpeed s v) times).1 now).2.1.m_speed| = 1000000 / s.m_initialStepSize ∧
      (0 < (run (pollAll (setSpeed s v) times).1 now).2.1.m_speed ↔ v < 0)) := by
  have hq := pollAll_quiet (setSpeed s v) times hquiet
  rw [hq, run_of_fires _ now hfire]
  have hcond := (makeStep_fires_iff (setSpeed s v) now).1 hfire
  have hpost := setSpeed_shape s v
  have hsp0 : (setSpeed s v).m_speed ≠ 0 := by
    intro h0
    exact hcond.1 (hpost.1 h0).1
  have hdirS := (hpost.2.1 hsp0).2
  have hsign := constrain_sign v s.m_maxSpeed hM (by rw [← setSpeed_speed]; exact hsp0)
  rw [← setSpeed_speed] at hsign
  have hdir : (setSpeed s v).m_direction = (if 0 < v then CLOCKWISE else COUNTER_CLOCKWISE) := by
    by_cases hpos : 0 < v
    · rw [if_pos hpos]
      exact hdirS.2 (hsign.1 hpos)
    · rw [if_neg hpos]
      have hneg := hsign.2 hpos
      cases hd : (setSpeed s v).m_direction
      · exact absurd (hdirS.1 hd) (by linarith)
      · rfl
  obtain ⟨hnumS, _, hposS, htgtS, _, _, _, hinitS⟩ := hpost.2.2.1
  generalize hs1 : setSpeed s v = s1 at *
  generalize ha : advance s1 now = a
  have hnumA : a.m_stepNum = 0 := by subst ha; exact hnumS.trans hidle.1
  have hinitA : a.m_initialStepSize = s.m_initialStepSize := by subst ha; exact hinitS
  have htgtA : a.m_targetPosition = s.m_targetPosition := by subst ha; exact htgtS
  have hposA : a.m_currentPosition = s.m_currentPosition + (if 0 < v then 1 else -1) := by
    subst ha
    show s1.m_currentPosition + (if s1.m_direction = CLOCKWISE then 1 else -1) = _
    rw [hdir, hposS]
    by_cases hpos : 0 < v
    · simp [hpos]
    · simp [hpos]
  have hdist : getTargetDistance a = (if 0 < v then -1 else 1) := by
    unfold getTargetDistance
    rw [htgtA, hposA, hidle.2]
    split_ifs <;> omega
  have hmov : ¬ (getTargetDistance a = 0 ∧ (m_getStepsToStop a : Int) ≤ 1) := by
    rw [hdist]
    intro h
    have := h.1
    split_ifs at this
    all_goals omega
  have hr := phaseDecision_of_zero a (getTargetDistance a) (m_getStepsToStop a) hnumA
  have hd := recalc_direction_of_moving a hmov
  have hl := recalc_lastStepSize_of_moving a hmov
  have hn := recalc_stepNum_of_moving a hmov
  have hi := recalc_stepInterval_of_moving a hmov
  have hsp := recalc_speed_of_moving a hmov
  rw [hr] at hn
  rw [if_pos hr, hinitA] at hl
  rw [if_pos hr, hdist] at hd
  have hd' : (m_recalculateSpeed a).m_direction
      = (if 0 < v then COUNTER_CLOCKWISE else CLOCKWISE) := by
    rw [hd]
    by_cases hpos : 0 < v
    · simp [hpos]
    · simp [hpos]
  have hsp' : (m_recalculateSpeed a).m_speed
      = (if 0 < v then -(1000000 / s.m_initialStepSize) else 1000000 / s.m_initialStepSize) := by
    rw [hsp, hd', hl]
    by_cases hpos : 0 < v
    · simp [hpos]
    · simp [hpos]
  refine ⟨rfl, by rw [recalc_currentPosition, hposA], by rw [recalc_targetPosition, htgtA], hd', hl,
    by rw [hi, hl], hsp', by rw [hn]; norm_num, fun hi0 => ?_⟩
  have hq0 : (0 : ℚ) < 1000000 / s.m_initialStepSize := div_pos (by norm_num) hi0
  rw [hsp']
  by_cases hpos : 0 < v
  · rw [if_pos hpos, abs_neg, abs_of_pos hq0]
    exact ⟨rfl, ⟨fun h => absurd h (by linarith), fun h => absurd h (by linarith)⟩⟩
  · rw [if_neg hpos, abs_of_pos hq0]
    exact ⟨rfl, ⟨fun _ => lt_of_le_of_ne (not_lt.1 hpos) hv, fun _ => hq0⟩⟩

theorem velocity_mode_overwritten_witness :
    (((configured 1000 200).m_stepNum = 0 ∧
        (configured 1000 200).m_targetPosition = (configured 1000 200).m_currentPosition) ∧
      (50 : ℚ) ≠ 0 ∧ 0 ≤ (configured 1000 200).m_maxSpeed ∧
      (∀ t ∈ [100, 19999],
        (m_makeStepIfRequired (setSpeed (configured 1000 200) 50) t).1 = false) ∧
      (m_makeStepIfRequired (setSpeed (configured 1000 200) 50) 20000).1 = true) ∧
    (run (pollAll (setSpeed (configured 1000 200) 50) [100, 19999]).1 20000).2.1.m_direction
      = (if (0 : ℚ) < 50 then COUNTER_CLOCKWISE else CLOCKWISE) :=
  ⟨by decide!,
    (velocity_mode_overwritten (configured 1000 200) 50 [100, 19999] 20000 (by decide!)
      (by decide!) (by decide!) (by decide!) (by decide!)).2.2.2.1⟩

/-! ## Symmetry -/

theorem mirror_getTargetDistance (s : State) :
    getTargetDistance (mirror s) = -getTargetDistance s := by
  unfold getTargetDistance mirror
  simp only
  omega

theorem mirror_getStepsToStop (s : State) : m_getStepsToStop (mirror s) = m_getStepsToStop s := by
  unfold m_getStepsToStop mirror
  simp only [neg_mul_neg]

theorem mirror_direction_cw (s : State) :
    ((mirror s).m_direction = CLOCKWISE ↔ s.m_direction = COUNTER_CLOCKWISE) ∧
    ((mirror s).m_direction = COUNTER_CLOCKWISE ↔ s.m_direction = CLOCKWISE) := by
  unfold mirror
  cases h : s.m_direction <;> simp

theorem mirror_phaseDecision (s : State) (d st : Int) :
    phaseDecision (mirror s) (-d) st = phaseDecision s d st := by
  have hd := mirror_direction_cw s
  have hn : (mirror s).m_stepNum = s.m_stepNum := rfl
  unfold phaseDecision
  simp only [hn, hd.1, hd.2]
  by_cases h1 : d > 0
  · have h2 : ¬ (-d > 0) := by omega
    have h3 : -d < 0 := by omega
    simp only [h1, h2, h3, if_true, if_false, neg_neg]
  · by_cases h4 : d < 0
    · have h2 : -d > 0 := by omega
      simp only [h1, h2, h4, if_true, if_false]
    · have h2 : ¬ (-d > 0) := by omega
      have h3 : ¬ (-d < 0) := by omega
      simp only [h1, h2, h3, h4, if_false]

/-- The recalculation engine commutes with the mirror map, except in the one state where it
seeds a ramp at the target itself (target distance 0, stopping distance above 1, ramp index
0): there the seeded direction is counter-clockwise on both sides. -/
theorem recalc_mirror (a : State)
    (h : getTargetDistance a ≠ 0 ∨ (m_getStepsToStop a : Int) ≤ 1 ∨ a.m_stepNum ≠ 0) :
    m_recalculateSpeed (mirror a) = mirror (m_recalculateSpeed a) := by
  by_cases harr : getTargetDistance a = 0 ∧ (m_getStepsToStop a : Int) ≤ 1
  · have harr' : getTargetDistance (mirror a) = 0 ∧ (m_getStepsToStop (mirror a) : Int) ≤ 1 := by
      rw [mirror_getTargetDistance, mirror_getStepsToStop]
      exact ⟨by omega, harr.2⟩
    rw [recalc_of_arrived _ harr', recalc_of_arrived _ harr]
    simp [mirror]
  · have harr' : ¬ (getTargetDistance (mirror a) = 0 ∧ (m_getStepsToStop (mirror a) : Int) ≤ 1) := by
      rw [mirror_getTargetDistance, mirror_getStepsToStop]
      exact fun hc => harr ⟨by omega, hc.2⟩
    have hr : phaseDecision (mirror a) (getTargetDistance (mirror a)) (m_getStepsToStop (mirror a))
        = phaseDecision a (getTargetDistance a) (m_getStepsToStop a) := by
      rw [mirror_getTargetDistance, mirror_getStepsToStop, mirror_phaseDecision]
    have hr0 : phaseDecision a (getTargetDistance a) (m_getStepsToStop a) = 0 →
        getTargetDistance a ≠ 0 := by
      intro h0 hd
      rcases h with h | h | h
      · exact h hd
      · exact harr ⟨hd, h⟩
      · rw [hd] at h0
        unfold phaseDecision at h0
        simp only [gt_iff_lt, lt_irrefl, if_false] at h0
        exact h h0
    have hnum : (m_recalculateSpeed (mirror a)).m_stepNum = (m_recalculateSpeed a).m_stepNum := by
      rw [recalc_stepNum_of_moving _ harr', recalc_stepNum_of_moving _ harr, hr]
    have hlast : (m_recalculateSpeed (mirror a)).m_lastStepSize
        = (m_recalculateSpeed a).m_lastStepSize := by
      rw [recalc_lastStepSize_of_moving _ harr', recalc_lastStepSize_of_moving _ harr, hr]
      rfl
    have hdir : (m_recalculateSpeed (mirror a)).m_direction
        = (mirror (m_recalculateSpeed a)).m_direction := by
      show _ = (if (m_recalculateSpeed a).m_direction = CLOCKWISE then COUNTER_CLOCKWISE
        else CLOCKWISE)
      rw [recalc_direction_of_moving _ harr', recalc_direction_of_moving _ harr, hr,
        mirror_getTargetDistance]
      by_cases h0 : phaseDecision a (getTargetDistance a) (m_getStepsToStop a) = 0
      · have hd := hr0 h0
        rw [if_pos h0, if_pos h0]
        by_cases hp : getTargetDistance a > 0
        · have hn : ¬ (-getTargetDistance a > 0) := by omega
          simp [hp, hn]
        · have hn : -getTargetDistance a > 0 := by omega
          simp [hp, hn]
      · rw [if_neg h0, if_neg h0]
        rfl
    have hsp : (m_recalculateSpeed (mirror a)).m_speed = -(m_recalculateSpeed a).m_speed := by
      rw [recalc_speed_of_moving _ harr', recalc_speed_of_moving _ harr, hlast, hdir]
      have hm := mirror_direction_cw (m_recalculateSpeed a)
      cases hd : (m_recalculateSpeed a).m_direction
      · have : (mirror (m_recalculateSpeed a)).m_direction = COUNTER_CLOCKWISE := hm.2.2 hd
        simp [this]
      · have : (mirror (m_recalculateSpeed a)).m_direction = CLOCKWISE := hm.1.2 hd
        simp [this]
    have hint : (m_recalculateSpeed (mirror a)).m_stepInterval
        = (m_recalculateSpeed a).m_stepInterval := by
      rw [recalc_stepInterval_of_moving _ harr', recalc_stepInterval_of_moving _ harr, hlast]
    obtain ⟨f1, f2, f3, f4, f5, f6⟩ := recalc_frame (mirror a)
    obtain ⟨g1, g2, g3, g4, g5, g6⟩ := recalc_frame a
    apply state_ext
    · exact f1.trans g1.symm
    · exact f2.trans g2.symm
    · exact hdir
    · exact f3.trans g3.symm
    · exact f4.trans g4.symm
    · exact f5.trans g5.symm
    · exact f6.trans g6.symm
    · exact hsp
    · exact (recalc_maxSpeed _).trans (recalc_maxSpeed a).symm
    · exact (recalc_acceleration _).trans (recalc_acceleration a).symm
    · exact hint
    · exact (recalc_lastStepTime _).trans (recalc_lastStepTime a).symm
    · exact hnum
    · exact (recalc_initialStepSize _).trans (recalc_initialStepSize a).symm
    · exact hlast
    · exact (recalc_minStepSize _).trans (recalc_minStepSize a).symm
    · show _ = -(m_recalculateSpeed a).m_currentPosition
      rw [recalc_currentPosition, recalc_currentPosition]
      rfl
    · show _ = -(m_recalculateSpeed a).m_targetPosition
      rw [recalc_targetPosition, recalc_targetPosition]
      rfl

theorem toUInt32_lt_succ (q : ℚ) : q < ((toUInt32 q : Nat) : ℚ) + 1 := by
  by_cases h : 0 ≤ q
  · have h1 := toUInt32_of_nonneg q h
    have h2 : q < (⌊q⌋ : ℚ) + 1 := Int.lt_floor_add_one q
    have h3 : ((toUInt32 q : Nat) : ℚ) = ((⌊q⌋ : Int) : ℚ) := by exact_mod_cast h1
    rw [h3]
    exact h2
  · have h1 : (0 : ℚ) ≤ ((toUInt32 q : Nat) : ℚ) := Nat.cast_nonneg _
    linarith [not_le.1 h]

theorem toUInt32_of_lt_one (q : ℚ) (h : q < 1) : toUInt32 q = 0 := by
  by_cases h0 : 0 ≤ q
  · have h1 := toUInt32_of_nonneg q h0
    have h2 : ⌊q⌋ < 1 := Int.floor_lt.2 (by exact_mod_cast h)
    have h3 : 0 ≤ ⌊q⌋ := Int.floor_nonneg.2 h0
    omega
  · exact toUInt32_of_nonpos q (le_of_lt (not_le.1 h0))

/-- One decelerating step at index `-k` takes an energy below `k + 1` below `k`. -/
theorem decel_energy_upper (e k : ℚ) (hk1 : 1 ≤ k) (h : e < k + 1) :
    e * ((4 * k - 1) / (4 * k + 1)) ^ 2 < k := by
  have hd : (0 : ℚ) < 4 * k + 1 := by linarith
  rw [div_pow, ← mul_div_assoc, div_lt_iff₀ (by positivity)]
  nlinarith [mul_nonneg (le_of_lt (sub_pos.2 h)) (sq_nonneg (4 * k - 1))]

theorem phaseDecision_neg (a : State) (d st : Int) (hr : phaseDecision a d st ≤ -1) :
    (phaseDecision a d st = a.m_stepNum ∧ a.m_stepNum ≤ -1) ∨
    (phaseDecision a d st = -st ∧ 1 ≤ st) := by
  unfold phaseDecision at hr ⊢
  split_ifs at hr ⊢ with h1 h2 h3 h4 h5 h6
  · exact Or.inr ⟨rfl, by omega⟩
  · omega
  · exact Or.inl ⟨rfl, hr⟩
  · exact Or.inr ⟨rfl, by omega⟩
  · omega
  · exact Or.inl ⟨rfl, hr⟩
  · exact Or.inl ⟨rfl, hr⟩

/-- The recalculation engine establishes `Tracking` from a state with a positive step size
whose speed has the magnitude `1e6 / m_lastStepSize` and whose energy is below
`-m_stepNum + 1` while the ramp index is not positive. -/
theorem tracking_recalc (a : State) (hL : 0 < a.m_lastStepSize)
    (hsq : a.m_speed * a.m_speed = 1000000 / a.m_lastStepSize * (1000000 / a.m_lastStepSize))
    (hU : a.m_stepNum ≤ 0 → energy a < ((-a.m_stepNum : Int) : ℚ) + 1) :
    Tracking (m_recalculateSpeed a) := by
  by_cases harr : getTargetDistance a = 0 ∧ (m_getStepsToStop a : Int) ≤ 1
  · rw [recalc_of_arrived a harr]
    exact Or.inl rfl
  · by_cases hL' : 0 < (m_recalculateSpeed a).m_lastStepSize
    · refine Or.inr ⟨hL', recalc_speed_sq_of_moving a harr, fun hn => ?_⟩
      have hnum := recalc_stepNum_of_moving a harr
      have hlast := recalc_lastStepSize_of_moving a harr
      have hE' := energy_of_speed_sq _ (recalc_speed_sq_of_moving a harr)
      rw [recalc_acceleration] at hE'
      rw [hnum] at hn ⊢
      generalize hr : phaseDecision a (getTargetDistance a) (m_getStepsToStop a) = r at *
      have hr1 : r ≤ -1 := by omega
      have hk1 : (1 : Int) ≤ -r := by omega
      have hkq : (1 : ℚ) ≤ ((-r : Int) : ℚ) := by exact_mod_cast hk1
      have hgoal : ((-(r + 1) : Int) : ℚ) + 1 = ((-r : Int) : ℚ) := by
        push_cast
        ring
      rw [hgoal]
      by_cases hA : 0 < a.m_acceleration
      · have he : energy a < ((-r : Int) : ℚ) + 1 := by
          have hcases := phaseDecision_neg a (getTargetDistance a) (m_getStepsToStop a)
            (by rw [hr]; exact hr1)
          rw [hr] at hcases
          rcases hcases with ⟨h1, h2⟩ | ⟨h1, _⟩
          · rw [h1]
            exact hU (by omega)
          · have := toUInt32_lt_succ ((a.m_speed * a.m_speed) / (2 * a.m_acceleration))
            rw [h1, neg_neg]
            exact_mod_cast this
        rw [if_neg (by omega)] at hlast
        have hrec := recurrence_decel a.m_lastStepSize (-r) hk1
        rw [neg_neg] at hrec
        rw [hrec] at hlast
        have hgpos : (0 : ℚ) < (4 * ((-r : Int) : ℚ) + 1) / (4 * ((-r : Int) : ℚ) - 1) :=
          div_pos (by linarith) (by linarith)
        have hLg := mul_pos hL hgpos
        have hanti := energy_antitone _ (m_recalculateSpeed a).m_lastStepSize a.m_acceleration hLg
          (by rw [hlast]; exact le_max_right _ _) hA
        rw [energy_scaled _ _ _ hL hgpos hA, ← energy_of_speed_sq a hsq, one_div_div] at hanti
        rw [hE']
        exact lt_of_le_of_lt hanti (decel_energy_upper (energy a) _ hkq he)
      · have hle : energy (m_recalculateSpeed a) ≤ 0 := by
          unfold energy
          rw [recalc_acceleration]
          exact div_nonpos_of_nonneg_of_nonpos (mul_self_nonneg _) (by linarith [not_lt.1 hA])
        linarith
    · left
      rw [recalc_stepInterval_of_moving a harr]
      exact toUInt32_of_nonpos _ (not_lt.1 hL')

theorem tracking_run (s : State) (t : Nat) (h : Tracking s) : Tracking (run s t).2.1 := by
  by_cases hf : (m_makeStepIfRequired s t).1 = true
  · rw [run_of_fires s t hf]
    rcases h with h0 | ⟨hL, hsq, hU⟩
    · exact absurd h0 ((makeStep_fires_iff s t).1 hf).1
    · exact tracking_recalc (advance s t) hL hsq hU
  · have hf' : (m_makeStepIfRequired s t).1 = false := by
      cases hb : (m_makeStepIfRequired s t).1
      · rfl
      · exact absurd hb hf
    rw [run_of_not_fires s t hf']
    exact h

theorem makeStep_mirror (s : State) (t : Nat) :
    (m_makeStepIfRequired (mirror s) t).1 = (m_makeStepIfRequired s t).1 := by
  by_cases hf : (m_makeStepIfRequired s t).1 = true
  · rw [hf]
    exact (makeStep_fires_iff (mirror s) t).2 ((makeStep_fires_iff s t).1 hf)
  · have hf' : (m_makeStepIfRequired s t).1 = false := by
      cases hb : (m_makeStepIfRequired s t).1
      · rfl
      · exact absurd hb hf
    rw [hf']
    cases hb : (m_makeStepIfRequired (mirror s) t).1
    · rfl
    · exact absurd ((makeStep_fires_iff s t).2 ((makeStep_fires_iff (mirror s) t).1 hb)) hf

theorem advance_mirror (s : State) (t : Nat) : advance (mirror s) t = mirror (advance s t) := by
  unfold advance mirror
  cases h : s.m_direction <;> simp <;> omega

theorem run_result_eq (s : State) (t : Nat) :
    (run s t).1 = decide ((run s t).2.1.m_speed ≠ 0 ∨ getTargetDistance (run s t).2.1 ≠ 0) := rfl

/-- One poll commutes with the mirror map on a state that satisfies `Tracking`. -/
theorem run_mirror (s : State) (t : Nat) (h : Tracking s) :
    (run (mirror s) t).2.1 = mirror (run s t).2.1 ∧ (run (mirror s) t).1 = (run s t).1 := by
  have hstate : (run (mirror s) t).2.1 = mirror (run s t).2.1 := by
    by_cases hf : (m_makeStepIfRequired s t).1 = true
    · have hf' : (m_makeStepIfRequired (mirror s) t).1 = true := by rw [makeStep_mirror]; exact hf
      rw [run_of_fires s t hf, run_of_fires (mirror s) t hf', advance_mirror]
      apply recalc_mirror
      rcases h with h0 | ⟨hL, hsq, hU⟩
      · exact absurd h0 ((makeStep_fires_iff s t).1 hf).1
      · by_cases hn : (advance s t).m_stepNum = 0
        · right
          left
          have hn' : s.m_stepNum = 0 := hn
          have he : energy s < 1 := by
            have := hU (by omega)
            rw [hn'] at this
            simpa using this
          have h0 : m_getStepsToStop (advance s t) = 0 := toUInt32_of_lt_one _ he
          rw [h0]
          decide
        · exact Or.inr (Or.inr hn)
    · have hf' : (m_makeStepIfRequired s t).1 = false := by
        cases hb : (m_makeStepIfRequired s t).1
        · rfl
        · exact absurd hb hf
      have hf'' : (m_makeStepIfRequired (mirror s) t).1 = false := by
        rw [makeStep_mirror]; exact hf'
      rw [run_of_not_fires s t hf', run_of_not_fires (mirror s) t hf'']
  refine ⟨hstate, ?_⟩
  rw [run_result_eq, run_result_eq, hstate, mirror_getTargetDistance]
  have h1 : (mirror (run s t).2.1).m_speed = -(run s t).2.1.m_speed := rfl
  rw [h1]
  simp only [ne_eq, neg_eq_zero]

theorem tracking_trajectory (s : State) (clock : Nat → Nat) (h : Tracking s) (k : Nat) :
    Tracking (trajectory s clock k) := by
  induction k with
  | zero => exact h
  | succ j ih => exact tracking_run _ _ ih

theorem mirror_trajectory (s : State) (clock : Nat → Nat) (h : Tracking s) (k : Nat) :
    trajectory (mirror s) clock k = mirror (trajectory s clock k) := by
  induction k with
  | zero => rfl
  | succ j ih =>
    simp only [trajectory]
    rw [ih]
    exact (run_mirror _ _ (tracking_trajectory s clock h j)).1

theorem tracking_moveTo (s0 : State) (t : Int) (ht : t ≠ s0.m_currentPosition)
    (hrest : s0.m_stepNum = 0) : Tracking (moveTo s0 t) := by
  unfold moveTo
  generalize ha : ({ s0 with m_targetPosition := t } : State) = a
  have hd : getTargetDistance a ≠ 0 := by
    subst ha
    unfold getTargetDistance
    show t - s0.m_currentPosition ≠ 0
    omega
  have hmov : ¬ (getTargetDistance a = 0 ∧ (m_getStepsToStop a : Int) ≤ 1) := fun h => hd h.1
  have hnum := recalc_stepNum_of_moving a hmov
  rw [phaseDecision_of_zero a _ _ (by subst ha; exact hrest)] at hnum
  by_cases hL : 0 < (m_recalculateSpeed a).m_lastStepSize
  · exact Or.inr ⟨hL, recalc_speed_sq_of_moving a hmov, fun hn => by rw [hnum] at hn; omega⟩
  · left
    rw [recalc_stepInterval_of_moving a hmov]
    exact toUInt32_of_nonpos _ (not_lt.1 hL)

theorem moveTo_mirror (s0 : State) (t : Int) (ht : t ≠ s0.m_currentPosition) :
    moveTo (mirror s0) (-t) = mirror (moveTo s0 t) := by
  unfold moveTo
  have h := recalc_mirror { s0 with m_targetPosition := t }
    (Or.inl (by
      unfold getTargetDistance
      show t - s0.m_currentPosition ≠ 0
      omega))
  rw [← h]
  rfl

/-- From ramp index 0 and away from the target the recalculation engine seeds a ramp: its
result does not depend on the previous speed and direction. -/
theorem recalc_seed_congr (a : State) (v : ℚ) (dir : MovementDirection)
    (hd : getTargetDistance a ≠ 0) (hn : a.m_stepNum = 0) :
    m_recalculateSpeed { a with m_speed := v, m_direction := dir } = m_recalculateSpeed a := by
  generalize hb : ({ a with m_speed := v, m_direction := dir } : State) = b
  have hdb : getTargetDistance b = getTargetDistance a := by subst hb; rfl
  have hnb : b.m_stepNum = 0 := by subst hb; exact hn
  have hmovA : ¬ (getTargetDistance a = 0 ∧ (m_getStepsToStop a : Int) ≤ 1) := fun h => hd h.1
  have hmovB : ¬ (getTargetDistance b = 0 ∧ (m_getStepsToStop b : Int) ≤ 1) :=
    fun h => hd (hdb ▸ h.1)
  have hrA := phaseDecision_of_zero a (getTargetDistance a) (m_getStepsToStop a) hn
  have hrB := phaseDecision_of_zero b (getTargetDistance b) (m_getStepsToStop b) hnb
  have hdir : (m_recalculateSpeed b).m_direction = (m_recalculateSpeed a).m_direction := by
    rw [recalc_direction_of_moving b hmovB, recalc_direction_of_moving a hmovA, if_pos hrA,
      if_pos hrB, hdb]
  have hlast : (m_recalculateSpeed b).m_lastStepSize = (m_recalculateSpeed a).m_lastStepSize := by
    rw [recalc_lastStepSize_of_moving b hmovB, recalc_lastStepSize_of_moving a hmovA, if_pos hrA,
      if_pos hrB]
    subst hb
    rfl
  obtain ⟨f1, f2, f3, f4, f5, f6⟩ := recalc_frame b
  obtain ⟨g1, g2, g3, g4, g5, g6⟩ := recalc_frame a
  apply state_ext
  · rw [f1, g1]; subst hb; rfl
  · rw [f2, g2]; subst hb; rfl
  · exact hdir
  · rw [f3, g3]; subst hb; rfl
  · rw [f4, g4]; subst hb; rfl
  · rw [f5, g5]; subst hb; rfl
  · rw [f6, g6]; subst hb; rfl
  · rw [recalc_speed_of_moving b hmovB, recalc_speed_of_moving a hmovA, hdir, hlast]
  · rw [recalc_maxSpeed, recalc_maxSpeed]; subst hb; rfl
  · rw [recalc_acceleration, recalc_acceleration]; subst hb; rfl
  · rw [recalc_stepInterval_of_moving b hmovB, recalc_stepInterval_of_moving a hmovA, hlast]
  · rw [recalc_lastStepTime, recalc_lastStepTime]; subst hb; rfl
  · rw [recalc_stepNum_of_moving b hmovB, recalc_stepNum_of_moving a hmovA, hrA, hrB]
  · rw [recalc_initialStepSize, recalc_initialStepSize]; subst hb; rfl
  · exact hlast
  · rw [recalc_minStepSize, recalc_minStepSize]; subst hb; rfl
  · rw [recalc_currentPosition, recalc_currentPosition]; subst hb; rfl
  · rw [recalc_targetPosition, recalc_targetPosition]; subst hb; rfl

theorem moveTo_of_origin (s0 : State) (N : Int) (hN : N ≠ 0) (hrest : s0.m_stepNum = 0)
    (hpos : s0.m_currentPosition = 0) : moveTo (mirror s0) (-N) = moveTo s0 (-N) := by
  unfold moveTo
  have hd : getTargetDistance ({ s0 with m_targetPosition := -N } : State) ≠ 0 := by
    unfold getTargetDistance
    show -N - s0.m_currentPosition ≠ 0
    omega
  rw [← recalc_seed_congr { s0 with m_targetPosition := -N } (-s0.m_speed)
    (if s0.m_direction = CLOCKWISE then COUNTER_CLOCKWISE else CLOCKWISE) hd hrest]
  have hneg : -s0.m_currentPosition = s0.m_currentPosition := by omega
  unfold mirror
  simp only [hneg]

/-- C12. Symmetry. For every driver state `s0` with ramp index 0 (in particular at rest), every
`N ≠ 0` and every sequence of clock readings: the trajectory of polls after a target command
toward `-(p + N)` from the mirrored state is, poll for poll, the mirror of the trajectory
after the target command toward `p + N` from `s0` (`p` the current position); so the two
sequences of `m_stepInterval` values are identical and every direction is reversed. On these
trajectories one poll commutes with the mirror map (state and result of `run`), and so does
the recalculation engine at every step made. From position 0 the mirrored start is the
same driver: the trajectory toward `-N` is the mirror of the trajectory toward `+N`. -/
theorem mirror_symmetry (s0 : State) (N : Int) (clock : Nat → Nat) (hN : N ≠ 0)
    (hrest : s0.m_stepNum = 0) (k : Nat) :
    trajectory (moveTo (mirror s0) (-(s0.m_currentPosition + N))) clock k
      = mirror (trajectory (moveTo s0 (s0.m_currentPosition + N)) clock k) ∧
    (trajectory (moveTo (mirror s0) (-(s0.m_currentPosition + N))) clock k).m_stepInterval
      = (trajectory (moveTo s0 (s0.m_currentPosition + N)) clock k).m_stepInterval ∧
    (trajectory (moveTo (mirror s0) (-(s0.m_currentPosition + N))) clock k).m_direction
      ≠ (trajectory (moveTo s0 (s0.m_currentPosition + N)) clock k).m_direction ∧
    (∀ t : Nat,
      (run (mirror (trajectory (moveTo s0 (s0.m_currentPosition + N)) clock k)) t).2.1
        = mirror (run (trajectory (moveTo s0 (s0.m_currentPosition + N)) clock k) t).2.1 ∧
      (run (mirror (trajectory (moveTo s0 (s0.m_currentPosition + N)) clock k)) t).1
        = (run (trajectory (moveTo s0 (s0.m_currentPosition + N)) clock k) t).1 ∧
      ((m_makeStepIfRequired (trajectory (moveTo s0 (s0.m_currentPosition + N)) clock k) t).1
          = true →
        m_recalculateSpeed
            (mirror (advance (trajectory (moveTo s0 (s0.m_currentPosition + N)) clock k) t))
          = mirror (m_recalculateSpeed
            (advance (trajectory (moveTo s0 (s0.m_currentPosition + N)) clock k) t)))) ∧
    (s0.m_currentPosition = 0 →
      trajectory (moveTo s0 (-N)) clock k = mirror (trajectory (moveTo s0 N) clock k) ∧
      (trajectory (moveTo s0 (-N)) clock k).m_stepInterval
        = (trajectory (moveTo s0 N) clock k).m_stepInterval ∧
      (trajectory (moveTo s0 (-N)) clock k).m_direction
        ≠ (trajectory (moveTo s0 N) clock k).m_direction) := by
  have ht : s0.m_currentPosition + N ≠ s0.m_currentPosition := by omega
  have htr := tracking_moveTo s0 (s0.m_currentPosition + N) ht hrest
  have hmain : trajectory (moveTo (mirror s0) (-(s0.m_currentPosition + N))) clock k
      = mirror (trajectory (moveTo s0 (s0.m_currentPosition + N)) clock k) := by
    rw [moveTo_mirror s0 _ ht]
    exact mirror_trajectory _ clock htr k
  have hdirne : ∀ x : State, (mirror x).m_direction ≠ x.m_direction := by
    intro x
    unfold mirror
    cases hx : x.m_direction <;> simp
  have hTk := tracking_trajectory _ clock htr k
  refine ⟨hmain, by rw [hmain]; rfl, by rw [hmain]; exact hdirne _, fun t => ?_, fun hpos => ?_⟩
  · obtain ⟨r1, r2⟩ := run_mirror _ t hTk
    refine ⟨r1, r2, fun hf => ?_⟩
    have hf' : (m_makeStepIfRequired
        (mirror (trajectory (moveTo s0 (s0.m_currentPosition + N)) clock k)) t).1 = true := by
      rw [makeStep_mirror]
      exact hf
    rw [run_of_fires _ t hf, run_of_fires _ t hf', advance_mirror] at r1
    exact r1
  · have h0 : trajectory (moveTo s0 (-N)) clock k = mirror (trajectory (moveTo s0 N) clock k) := by
      have h1 := hmain
      rw [hpos, zero_add, moveTo_of_origin s0 N hN hrest hpos] at h1
      exact h1
    exact ⟨h0, by rw [h0]; rfl, by rw [h0]; exact hdirne _⟩

theorem mirror_symmetry_witness :
    ((3 : Int) ≠ 0 ∧ (configured 1000 200).m_stepNum = 0 ∧
      (configured 1000 200).m_currentPosition = 0) ∧
    trajectory (moveTo (configured 1000 200) (-3)) (fun k => 100000 * (k + 1)) 2
      = mirror (trajectory (moveTo (configured 1000 200) 3) (fun k => 100000 * (k + 1)) 2) :=
  ⟨by decide!,
    ((mirror_symmetry (configured 1000 200) 3 (fun k => 100000 * (k + 1)) (by decide)
      (by decide!) 2).2.2.2.2 (by decide!)).1⟩

/-! ## Smooth stop -/

/-- Every state on the ramp of a positioning move satisfies `SmoothStoppable`. -/
theorem onRamp_smoothStoppable (s : State) (h : OnRamp s) : SmoothStoppable s := by
  have hA := h.acceleration_pos
  rcases h.ramp with ⟨hn, hb, _, hclamp⟩ | ⟨hn, hclamp, hlo, hhi, _⟩
  · by_cases h1 : s.m_stepNum = 1
    · left
      rw [h1] at hb
      have hb' : energy s ≤ 5471 / 10000 := hb
      exact toUInt32_of_lt_one _ (by unfold energy at hb'; linarith)
    · exact Or.inr ⟨h.minStep_ge, Or.inr ⟨by omega, hclamp (by omega), h.speed_sq,
        fun hneg => by omega⟩⟩
  · by_cases h0 : s.m_stepNum = 0
    · left
      rw [h0] at hhi
      exact toUInt32_of_lt_one _ (by unfold energy at hhi; simpa using hhi)
    · refine Or.inr ⟨h.minStep_ge, Or.inr ⟨h0, hclamp, h.speed_sq, fun _ => ?_⟩⟩
      rw [stepsToStop_eq_floor s hA]
      exact Int.floor_eq_iff.2 ⟨hlo, hhi⟩

/-- The first half of a smooth stop, in every state with a positive acceleration: the target
becomes the current position plus or minus `floor (S ^ 2 / (2 * A))`, by the direction, the
current position is kept, and the result is that of the recalculation engine. -/
theorem stop_target (s : State) (hA : 0 < s.m_acceleration) :
    stop s true =
      m_recalculateSpeed
        { s with
          m_targetPosition :=
            s.m_currentPosition
              + (m_getStepsToStop s : Int) * (if s.m_direction = CLOCKWISE then 1 else -1) } ∧
    (stop s true).m_targetPosition
      = (if s.m_direction = CLOCKWISE
          then s.m_currentPosition + ⌊s.m_speed ^ 2 / (2 * s.m_acceleration)⌋
          else s.m_currentPosition - ⌊s.m_speed ^ 2 / (2 * s.m_acceleration)⌋) ∧
    (stop s true).m_currentPosition = s.m_currentPosition := by
  have hfloor : ((m_getStepsToStop s : Nat) : Int) = ⌊s.m_speed ^ 2 / (2 * s.m_acceleration)⌋ := by
    rw [stepsToStop_eq_floor s hA, pow_two]
    rfl
  have hstop : stop s true = m_recalculateSpeed
      { s with
        m_targetPosition :=
          s.m_currentPosition
            + (m_getStepsToStop s : Int) * (if s.m_direction = CLOCKWISE then 1 else -1) } := rfl
  refine ⟨hstop, ?_, ?_⟩
  · rw [hstop, recalc_targetPosition, ← hfloor]
    show s.m_currentPosition
      + (m_getStepsToStop s : Int) * (if s.m_direction = CLOCKWISE then 1 else -1) = _
    split_ifs <;> ring
  · rw [hstop, recalc_currentPosition]

end StepperDriver
